import Mathlib

/-!
Verification development for the helmscan repository
(`internal/helmscan/helmscan.go`).

The comparison engine (`CompareHelmCharts`, `compareImageVulnerabilities`)
and the report helpers (`generateMarkdownReport`'s severity and image
sections, `generateJSONSeverityCounts`, `generateJSONImageChanges`) are
embedded shallowly.  Go's `map[string]T` values are embedded as
association lists (`List (String × T)`): assignment `m[k] = v` replaces
the (unique) binding for `k` or appends a fresh one, and lookup finds the
binding for `k`.  Go's unspecified map iteration order becomes the list
order of the association list, so a single Go map is represented by any
permutation of its bindings; properties about map *content* are stated
through lookups, which are permutation-invariant on maps with unique
keys, while iteration-order sensitivity is made visible by comparing two
list representations of the same map.

The `ScanResult` field of a container image is carried by the Go code but
never read by the comparison or rendering code modelled here, so it is
omitted from the embedded `ContainerImage`.
-/

namespace Helmscan

/-- One CVE finding (package `imageScan`/`reports` of the repository;
only the fields read by the comparison and rendering code are carried:
`ID` and `Severity`, with `GetSeverity` returning the severity string). -/
structure Vulnerability where
  ID : String
  Severity : String
  deriving Repr, DecidableEq, Inhabited

/-- Lookup in a Go `map[string]α`: the value bound to key `k`, if any. -/
def mapLookup {α : Type} : List (String × α) → String → Option α
  | [], _ => none
  | p :: rest, k => if p.1 = k then some p.2 else mapLookup rest k

/-- Go map assignment `m[k] = v`: replace the binding for `k` if present,
otherwise add a fresh binding. -/
def mapInsert {α : Type} : List (String × α) → String → α → List (String × α)
  | [], k, v => [(k, v)]
  | p :: rest, k, v => if p.1 = k then (k, v) :: rest else p :: mapInsert rest k v

/-- The key set of an embedded Go map, as a list. -/
def mapKeys {α : Type} (m : List (String × α)) : List String :=
  m.map Prod.fst

/-- Go maps have unique keys; an association list represents a Go map
exactly when its keys are pairwise distinct. -/
def keysUnique {α : Type} (m : List (String × α)) : Prop :=
  (mapKeys m).Nodup

instance {α : Type} (m : List (String × α)) : Decidable (keysUnique m) :=
  inferInstanceAs (Decidable ((mapKeys m).Nodup))

/-- The last binding for a key in an association list.  When a fold
assigns several values to the same key, Go map semantics keeps the last
one; on unique-key lists this agrees with `mapLookup`. -/
def lastLookup {α : Type} (m : List (String × α)) (k : String) : Option α :=
  mapLookup m.reverse k

/-- `ContainerImage` (helmscan.go, lines 76–82); `ScanResult` omitted as
unread by the embedded code. -/
structure ContainerImage where
  Repository : String
  Tag : String
  ImageName : String
  Vulnerabilities : List (String × Vulnerability)
  deriving Repr, DecidableEq, Inhabited

/-- `HelmChart` (helmscan.go, lines 59–64). -/
structure HelmChart where
  Name : String
  Version : String
  HelmRepo : String
  ContainsImages : List ContainerImage
  deriving Repr, DecidableEq, Inhabited

/-- The nested map `map[string]map[string]reports.Vulnerability` used for
the CVE classification maps. -/
abbrev CVEMap := List (String × List (String × Vulnerability))

/-- The net effect of the Go idiom
`if _, ok := m[id]; !ok { m[id] = make(...) }; m[id][name] = vuln`
(helmscan.go lines 193–196, 202–207, 216–221, 232–235, 237–240,
246–249). -/
def cveInsert (m : CVEMap) (id name : String) (v : Vulnerability) : CVEMap :=
  match mapLookup m id with
  | none => mapInsert m id (mapInsert [] name v)
  | some inner => mapInsert m id (mapInsert inner name v)

/-- Lookup of `m[id][name]` in a nested CVE map. -/
def cveLookup (m : CVEMap) (id name : String) : Option Vulnerability :=
  match mapLookup m id with
  | none => none
  | some inner => mapLookup inner name

/-- `HelmComparison` (helmscan.go, lines 47–57). -/
structure HelmComparison where
  Before : HelmChart
  After : HelmChart
  AddedImages : List (String × List ContainerImage)
  RemovedImages : List (String × List ContainerImage)
  ChangedImages : List (String × List ContainerImage)
  UnChangedImages : List (String × List ContainerImage)
  RemovedCVEs : CVEMap
  AddedCVEs : CVEMap
  UnchangedCVEs : CVEMap
  deriving Repr, DecidableEq, Inhabited

/-- The image indexes built at helmscan.go lines 174–183:
`beforeImages[img.ImageName] = img` over the chart's image list. -/
def indexImages (imgs : List ContainerImage) : List (String × ContainerImage) :=
  imgs.foldl (fun m img => mapInsert m img.ImageName img) []

/-- `compareImageVulnerabilities` (helmscan.go, lines 229–252): the
CVE-level sub-diff run for a pair whose tags differ. -/
def compareImageVulnerabilities (before after : ContainerImage)
    (comparison : HelmComparison) : HelmComparison :=
  let c1 := before.Vulnerabilities.foldl (fun c p =>
    if (mapLookup after.Vulnerabilities p.1).isNone then
      { c with RemovedCVEs := cveInsert c.RemovedCVEs p.1 before.ImageName p.2 }
    else
      { c with UnchangedCVEs := cveInsert c.UnchangedCVEs p.1 before.ImageName p.2 })
    comparison
  after.Vulnerabilities.foldl (fun c p =>
    if (mapLookup before.Vulnerabilities p.1).isNone then
      { c with AddedCVEs := cveInsert c.AddedCVEs p.1 after.ImageName p.2 }
    else c) c1

/-- The body of the loop over `beforeImages` (helmscan.go, lines
185–210): classify one before-image against the after index. -/
def beforeStep (afterImages : List (String × ContainerImage))
    (c : HelmComparison) (p : String × ContainerImage) : HelmComparison :=
  match mapLookup afterImages p.1 with
  | some afterImg =>
    if p.2.Tag ≠ afterImg.Tag then
      compareImageVulnerabilities p.2 afterImg
        { c with ChangedImages := mapInsert c.ChangedImages p.1 [p.2, afterImg] }
    else
      p.2.Vulnerabilities.foldl (fun c q =>
        { c with UnchangedCVEs := cveInsert c.UnchangedCVEs q.1 p.1 q.2 })
        { c with UnChangedImages := mapInsert c.UnChangedImages p.1 [p.2, afterImg] }
  | none =>
    p.2.Vulnerabilities.foldl (fun c q =>
      { c with RemovedCVEs := cveInsert c.RemovedCVEs q.1 p.1 q.2 })
      { c with RemovedImages := mapInsert c.RemovedImages p.1 [p.2] }

/-- The body of the loop over `afterImages` (helmscan.go, lines
212–224): images absent from the before index are Added. -/
def afterStep (beforeImages : List (String × ContainerImage))
    (c : HelmComparison) (p : String × ContainerImage) : HelmComparison :=
  match mapLookup beforeImages p.1 with
  | some _ => c
  | none =>
    p.2.Vulnerabilities.foldl (fun c q =>
      { c with AddedCVEs := cveInsert c.AddedCVEs q.1 p.1 q.2 })
      { c with AddedImages := mapInsert c.AddedImages p.1 [p.2] }

/-- The empty comparison built at helmscan.go lines 162–172. -/
def initComparison (before after : HelmChart) : HelmComparison :=
  { Before := before, After := after,
    AddedImages := [], RemovedImages := [],
    ChangedImages := [], UnChangedImages := [],
    RemovedCVEs := [], AddedCVEs := [], UnchangedCVEs := [] }

/-- `CompareHelmCharts` (helmscan.go, lines 161–227). -/
def CompareHelmCharts (before after : HelmChart) : HelmComparison :=
  let beforeImages := indexImages before.ContainsImages
  let afterImages := indexImages after.ContainsImages
  let c1 := beforeImages.foldl (beforeStep afterImages) (initComparison before after)
  afterImages.foldl (afterStep beforeImages) c1

/-! ### Basic association-map lemmas -/

theorem mapLookup_insert_self {α : Type} (m : List (String × α)) (k : String) (v : α) :
    mapLookup (mapInsert m k v) k = some v := by
  induction m with
  | nil => simp [mapInsert, mapLookup]
  | cons p rest ih =>
    by_cases h : p.1 = k
    · simp [mapInsert, h, mapLookup]
    · simp [mapInsert, h, mapLookup, ih]

theorem mapLookup_insert_ne {α : Type} (m : List (String × α)) (k k' : String) (v : α)
    (h : k' ≠ k) : mapLookup (mapInsert m k v) k' = mapLookup m k' := by
  induction m with
  | nil => simp [mapInsert, mapLookup, Ne.symm h]
  | cons p rest ih =>
    by_cases hp : p.1 = k
    · subst hp
      simp [mapInsert, mapLookup, Ne.symm h]
    · simp [mapInsert, hp, mapLookup, ih]

theorem mapLookup_isSome_iff_mem_keys {α : Type} (m : List (String × α)) (k : String) :
    (mapLookup m k).isSome ↔ k ∈ mapKeys m := by
  induction m with
  | nil => simp [mapLookup, mapKeys]
  | cons p rest ih =>
    by_cases h : p.1 = k
    · simp [mapLookup, h, mapKeys]
    · simp [mapLookup, h, mapKeys, ih, Ne.symm h]

theorem mem_keys_insert_iff {α : Type} (m : List (String × α)) (k k' : String) (v : α) :
    k' ∈ mapKeys (mapInsert m k v) ↔ k' = k ∨ k' ∈ mapKeys m := by
  induction m with
  | nil => simp [mapInsert, mapKeys]
  | cons p rest ih =>
    by_cases h : p.1 = k
    · subst h
      have he : mapInsert (p :: rest) p.1 v = (p.1, v) :: rest := by
        simp [mapInsert]
      rw [he]
      show k' ∈ p.1 :: mapKeys rest ↔ k' = p.1 ∨ k' ∈ p.1 :: mapKeys rest
      simp only [List.mem_cons]
      tauto
    · have he : mapInsert (p :: rest) k v = p :: mapInsert rest k v := by
        simp [mapInsert, h]
      rw [he]
      show k' ∈ p.1 :: mapKeys (mapInsert rest k v) ↔ k' = k ∨ k' ∈ p.1 :: mapKeys rest
      simp only [List.mem_cons]
      rw [ih]
      tauto

theorem keysUnique_insert {α : Type} (m : List (String × α)) (k : String) (v : α)
    (h : keysUnique m) : keysUnique (mapInsert m k v) := by
  induction m with
  | nil => simp [keysUnique, mapInsert, mapKeys]
  | cons p rest ih =>
    have h' : (p.1 :: mapKeys rest).Nodup := h
    have h1 : p.1 ∉ mapKeys rest := (List.nodup_cons.mp h').1
    have h2 : keysUnique rest := (List.nodup_cons.mp h').2
    by_cases hp : p.1 = k
    · subst hp
      have he : mapInsert (p :: rest) p.1 v = (p.1, v) :: rest := by
        simp [mapInsert]
      rw [he]
      show (p.1 :: mapKeys rest).Nodup
      exact List.nodup_cons.mpr ⟨h1, h2⟩
    · have he : mapInsert (p :: rest) k v = p :: mapInsert rest k v := by
        simp [mapInsert, hp]
      rw [he]
      show (p.1 :: mapKeys (mapInsert rest k v)).Nodup
      refine List.nodup_cons.mpr ⟨?_, ih h2⟩
      intro hmem
      rcases (mem_keys_insert_iff rest k p.1 v).mp hmem with h3 | h3
      · exact hp h3
      · exact h1 h3

/-- First-of-two choice on options: the left value when present,
otherwise the right one.  Used to express how a later map write shadows
an earlier one. -/
def ofb {β : Type} (a b : Option β) : Option β :=
  match a with
  | some v => some v
  | none => b

theorem ofb_none {β : Type} (b : Option β) : ofb none b = b := rfl

theorem ofb_some {β : Type} (v : β) (b : Option β) : ofb (some v) b = some v := rfl

theorem ofb_assoc {β : Type} (a b c : Option β) :
    ofb a (ofb b c) = ofb (ofb a b) c := by
  cases a <;> rfl

/-- The last hit of `g` along a list: the value produced by the latest
element on which `g` fires. -/
def lastHit {α β : Type} (g : α → Option β) : List α → Option β
  | [] => none
  | p :: rest => ofb (lastHit g rest) (g p)

theorem lastHit_of_none {α β : Type} (g : α → Option β) (l : List α)
    (h : ∀ p ∈ l, g p = none) : lastHit g l = none := by
  induction l with
  | nil => rfl
  | cons q rest ih =>
    simp only [lastHit, ih (fun p hp => h p (List.mem_cons_of_mem q hp)),
      h q (List.mem_cons_self q rest), ofb_none]

/-- Observation of a left fold: when every step either leaves the
observation `O` unchanged or freezes it to the value `g` yields on the
step's element, the fold's observation is the last hit of `g`, with the
initial observation as fallback. -/
theorem foldl_observe {C α β : Type} (f : C → α → C) (O : C → Option β)
    (g : α → Option β) (l : List α)
    (hstep : ∀ c p, p ∈ l → O (f c p) = ofb (g p) (O c)) :
    ∀ c, O (l.foldl f c) = ofb (lastHit g l) (O c) := by
  induction l with
  | nil => intro c; simp [lastHit, ofb_none]
  | cons q rest ih =>
    intro c
    have hq := hstep c q (List.mem_cons_self q rest)
    simp only [List.foldl_cons]
    rw [ih (fun c p hp => hstep c p (List.mem_cons_of_mem q hp)) (f c q), hq,
      lastHit, ofb_assoc]

theorem lastHit_keyed_of_not_mem {α β : Type} (l : List (String × α)) (n : String)
    (h : α → Option β) (hn : n ∉ mapKeys l) :
    lastHit (fun p => if p.1 = n then h p.2 else none) l = none := by
  apply lastHit_of_none
  intro p hp
  have : p.1 ≠ n := by
    intro he
    exact hn (he ▸ List.mem_map_of_mem Prod.fst hp)
  simp [this]

/-- On a unique-key association list, the last keyed hit is just the
lookup, post-processed by `h`. -/
theorem lastHit_keyed_unique {α β : Type} (l : List (String × α)) (n : String)
    (h : α → Option β) (hu : keysUnique l) :
    lastHit (fun p => if p.1 = n then h p.2 else none) l
      = (mapLookup l n).bind h := by
  induction l with
  | nil => simp [lastHit, mapLookup]
  | cons q rest ih =>
    have hu' : (q.1 :: mapKeys rest).Nodup := hu
    have h1 : q.1 ∉ mapKeys rest := (List.nodup_cons.mp hu').1
    have h2 : keysUnique rest := (List.nodup_cons.mp hu').2
    by_cases hq : q.1 = n
    · subst hq
      rw [lastHit, lastHit_keyed_of_not_mem rest q.1 h h1, ofb_none]
      simp [mapLookup]
    · simp only [lastHit, ih h2]
      have : mapLookup (q :: rest) n = mapLookup rest n := by
        simp [mapLookup, hq]
      rw [this]
      simp only [hq, if_false]
      cases (mapLookup rest n).bind h <;> rfl

theorem lastLookup_nil {α : Type} (k : String) : lastLookup ([] : List (String × α)) k = none := rfl

theorem lastLookup_cons {α : Type} (q : String × α) (rest : List (String × α)) (k : String) :
    lastLookup (q :: rest) k
      = ofb (lastLookup rest k) (if q.1 = k then some q.2 else none) := by
  unfold lastLookup
  rw [List.reverse_cons]
  induction rest.reverse with
  | nil =>
    simp only [List.nil_append, mapLookup]
    by_cases h : q.1 = k <;> simp [h, mapLookup, ofb]
  | cons r rr ih =>
    simp only [List.cons_append, mapLookup]
    by_cases h : r.1 = k
    · simp [h, ofb_some]
    · simp only [h, if_false]
      exact ih

theorem lastLookup_isSome_iff {α : Type} (l : List (String × α)) (k : String) :
    (lastLookup l k).isSome ↔ (mapLookup l k).isSome := by
  rw [lastLookup, mapLookup_isSome_iff_mem_keys, mapLookup_isSome_iff_mem_keys]
  unfold mapKeys
  rw [List.map_reverse, List.mem_reverse]

theorem lastLookup_of_unique {α : Type} (l : List (String × α)) (k : String)
    (hu : keysUnique l) : lastLookup l k = mapLookup l k := by
  induction l with
  | nil => rfl
  | cons q rest ih =>
    have hu' : (q.1 :: mapKeys rest).Nodup := hu
    have h1 : q.1 ∉ mapKeys rest := (List.nodup_cons.mp hu').1
    have h2 : keysUnique rest := (List.nodup_cons.mp hu').2
    rw [lastLookup_cons, ih h2]
    by_cases hq : q.1 = k
    · subst hq
      have : mapLookup rest q.1 = none := by
        cases hm : mapLookup rest q.1 with
        | none => rfl
        | some v =>
          exact absurd ((mapLookup_isSome_iff_mem_keys rest q.1).mp (by simp [hm])) h1
      simp [this, mapLookup, ofb]
    · simp [mapLookup, hq, ofb]
      cases mapLookup rest k <;> rfl

theorem mapLookup_of_mem_unique {α : Type} (m : List (String × α))
    (p : String × α) (hu : keysUnique m) (hm : p ∈ m) :
    mapLookup m p.1 = some p.2 := by
  induction m with
  | nil => cases hm
  | cons q rest ih =>
    have hu' : (q.1 :: mapKeys rest).Nodup := hu
    have h1 : q.1 ∉ mapKeys rest := (List.nodup_cons.mp hu').1
    have h2 : keysUnique rest := (List.nodup_cons.mp hu').2
    rcases List.mem_cons.mp hm with hm' | hm'
    · subst hm'
      simp [mapLookup]
    · have hp1 : p.1 ∈ mapKeys rest := List.mem_map_of_mem Prod.fst hm'
      have hne : q.1 ≠ p.1 := fun he => h1 (he ▸ hp1)
      simp [mapLookup, hne, ih h2 hm']

/-! ### Nested CVE-map lemmas -/

theorem cveLookup_cveInsert (m : CVEMap) (id name : String) (v : Vulnerability)
    (id' name' : String) :
    cveLookup (cveInsert m id name v) id' name'
      = if id' = id ∧ name' = name then some v else cveLookup m id' name' := by
  by_cases hid : id' = id
  · subst hid
    unfold cveInsert
    cases hm : mapLookup m id' with
    | none =>
      rw [cveLookup, mapLookup_insert_self]
      by_cases hn : name' = name
      · subst hn
        simp [mapLookup_insert_self]
      · simp only [hn, and_false, if_false]
        rw [mapLookup_insert_ne _ _ _ _ hn, cveLookup, hm]
        rfl
    | some inner =>
      rw [cveLookup, mapLookup_insert_self]
      by_cases hn : name' = name
      · subst hn
        simp [mapLookup_insert_self]
      · simp only [hn, and_false, if_false]
        rw [mapLookup_insert_ne _ _ _ _ hn, cveLookup, hm]
  · simp only [hid, false_and, if_false]
    unfold cveInsert
    cases hm : mapLookup m id with
    | none => rw [cveLookup, mapLookup_insert_ne _ _ _ _ hid, cveLookup]
    | some inner => rw [cveLookup, mapLookup_insert_ne _ _ _ _ hid, cveLookup]

/-- A batch of Go assignments `m[q.1][name] = q.2`, one for each
vulnerability entry `q` whose CVE ID passes the filter `keep`.  Each of
the CVE-recording loops of `CompareHelmCharts` and
`compareImageVulnerabilities` is an instance of this shape. -/
def cveBatch (m : CVEMap) (name : String) (vulns : List (String × Vulnerability))
    (keep : String → Bool) : CVEMap :=
  vulns.foldl (fun m q => if keep q.1 then cveInsert m q.1 name q.2 else m) m

theorem cveBatch_nil (m : CVEMap) (name : String) (keep : String → Bool) :
    cveBatch m name [] keep = m := rfl

theorem cveBatch_cons (m : CVEMap) (name : String) (q : String × Vulnerability)
    (rest : List (String × Vulnerability)) (keep : String → Bool) :
    cveBatch m name (q :: rest) keep
      = cveBatch (if keep q.1 then cveInsert m q.1 name q.2 else m) name rest keep := rfl

theorem cveLookup_cveBatch (name : String) (vulns : List (String × Vulnerability))
    (keep : String → Bool) (id n : String) :
    ∀ m : CVEMap,
    cveLookup (cveBatch m name vulns keep) id n
      = ofb (if n = name ∧ keep id then lastLookup vulns id else none)
          (cveLookup m id n) := by
  induction vulns with
  | nil =>
    intro m
    rw [cveBatch_nil, lastLookup_nil]
    by_cases h : n = name ∧ keep id = true <;> simp [h, ofb_none]
  | cons q rest ih =>
    intro m
    rw [cveBatch_cons, ih, lastLookup_cons]
    by_cases hc : n = name ∧ keep id = true
    · rw [if_pos hc, if_pos hc]
      cases hr : lastLookup rest id with
      | some v => simp only [ofb_some]
      | none =>
        simp only [ofb_none]
        by_cases hq : q.1 = id
        · have hkq : keep q.1 = true := by rw [hq]; exact hc.2
          rw [if_pos hkq, cveLookup_cveInsert, if_pos ⟨hq.symm, hc.1⟩, if_pos hq,
            ofb_some]
        · rw [if_neg hq, ofb_none]
          by_cases hk : keep q.1 = true
          · rw [if_pos hk, cveLookup_cveInsert, if_neg (fun hh => hq hh.1.symm)]
          · rw [if_neg hk]
    · simp only [hc, if_false, ofb_none]
      by_cases hk : keep q.1 = true
      · rw [if_pos hk, cveLookup_cveInsert]
        have : ¬(id = q.1 ∧ n = name) := by
          intro hh
          exact hc ⟨hh.2, hh.1 ▸ hk⟩
        rw [if_neg this]
      · rw [if_neg hk]

theorem ofb_none_right {β : Type} (a : Option β) : ofb a none = a := by
  cases a <;> rfl

theorem foldl_preserve {C α β : Type} (f : C → α → C) (O : C → β)
    (l : List α) (hstep : ∀ c p, p ∈ l → O (f c p) = O c) :
    ∀ c, O (l.foldl f c) = O c := by
  induction l with
  | nil => intro c; rfl
  | cons q rest ih =>
    intro c
    simp only [List.foldl_cons]
    rw [ih (fun c p hp => hstep c p (List.mem_cons_of_mem q hp)) (f c q),
      hstep c q (List.mem_cons_self q rest)]

/-! ### Loop-shape equations: the CVE-recording loops are `cveBatch`es -/

theorem removedLoop_eq (name : String) (vulns : List (String × Vulnerability)) :
    ∀ c : HelmComparison,
    vulns.foldl (fun c q =>
        { c with RemovedCVEs := cveInsert c.RemovedCVEs q.1 name q.2 }) c
      = { c with RemovedCVEs := cveBatch c.RemovedCVEs name vulns (fun _ => true) } := by
  induction vulns with
  | nil => intro c; rfl
  | cons q rest ih =>
    intro c
    simp only [List.foldl_cons]
    rw [ih]
    simp [cveBatch_cons]

theorem unchangedLoop_eq (name : String) (vulns : List (String × Vulnerability)) :
    ∀ c : HelmComparison,
    vulns.foldl (fun c q =>
        { c with UnchangedCVEs := cveInsert c.UnchangedCVEs q.1 name q.2 }) c
      = { c with UnchangedCVEs := cveBatch c.UnchangedCVEs name vulns (fun _ => true) } := by
  induction vulns with
  | nil => intro c; rfl
  | cons q rest ih =>
    intro c
    simp only [List.foldl_cons]
    rw [ih]
    simp [cveBatch_cons]

theorem addedLoop_eq (name : String) (vulns : List (String × Vulnerability)) :
    ∀ c : HelmComparison,
    vulns.foldl (fun c q =>
        { c with AddedCVEs := cveInsert c.AddedCVEs q.1 name q.2 }) c
      = { c with AddedCVEs := cveBatch c.AddedCVEs name vulns (fun _ => true) } := by
  induction vulns with
  | nil => intro c; rfl
  | cons q rest ih =>
    intro c
    simp only [List.foldl_cons]
    rw [ih]
    simp [cveBatch_cons]

theorem cIVFirstLoop_eq (bName : String) (aV : List (String × Vulnerability))
    (l : List (String × Vulnerability)) :
    ∀ c : HelmComparison,
    l.foldl (fun c p =>
        if (mapLookup aV p.1).isNone then
          { c with RemovedCVEs := cveInsert c.RemovedCVEs p.1 bName p.2 }
        else
          { c with UnchangedCVEs := cveInsert c.UnchangedCVEs p.1 bName p.2 }) c
      = { c with
          RemovedCVEs :=
            cveBatch c.RemovedCVEs bName l (fun id => (mapLookup aV id).isNone),
          UnchangedCVEs :=
            cveBatch c.UnchangedCVEs bName l (fun id => (mapLookup aV id).isSome) } := by
  induction l with
  | nil => intro c; rfl
  | cons q rest ih =>
    intro c
    simp only [List.foldl_cons]
    rw [ih]
    cases hql : mapLookup aV q.1 <;> simp [cveBatch_cons, hql]

theorem cIVSecondLoop_eq (aName : String) (bV : List (String × Vulnerability))
    (l : List (String × Vulnerability)) :
    ∀ c : HelmComparison,
    l.foldl (fun c p =>
        if (mapLookup bV p.1).isNone then
          { c with AddedCVEs := cveInsert c.AddedCVEs p.1 aName p.2 }
        else c) c
      = { c with
          AddedCVEs :=
            cveBatch c.AddedCVEs aName l (fun id => (mapLookup bV id).isNone) } := by
  induction l with
  | nil => intro c; rfl
  | cons q rest ih =>
    intro c
    simp only [List.foldl_cons]
    rw [ih]
    cases hql : mapLookup bV q.1 <;> simp [cveBatch_cons, hql]

theorem compareImageVulnerabilities_eq (b a : ContainerImage) (c : HelmComparison) :
    compareImageVulnerabilities b a c
      = { c with
          RemovedCVEs := cveBatch c.RemovedCVEs b.ImageName b.Vulnerabilities
            (fun id => (mapLookup a.Vulnerabilities id).isNone),
          UnchangedCVEs := cveBatch c.UnchangedCVEs b.ImageName b.Vulnerabilities
            (fun id => (mapLookup a.Vulnerabilities id).isSome),
          AddedCVEs := cveBatch c.AddedCVEs a.ImageName a.Vulnerabilities
            (fun id => (mapLookup b.Vulnerabilities id).isNone) } := by
  unfold compareImageVulnerabilities
  rw [cIVFirstLoop_eq, cIVSecondLoop_eq]

/-! ### Per-step normal forms of the two classification loops -/

theorem beforeStep_eq (A : List (String × ContainerImage)) (c : HelmComparison)
    (p : String × ContainerImage) :
    beforeStep A c p
      = match mapLookup A p.1 with
        | some afterImg =>
          if p.2.Tag ≠ afterImg.Tag then
            { c with
              ChangedImages := mapInsert c.ChangedImages p.1 [p.2, afterImg],
              RemovedCVEs := cveBatch c.RemovedCVEs p.2.ImageName p.2.Vulnerabilities
                (fun id => (mapLookup afterImg.Vulnerabilities id).isNone),
              UnchangedCVEs := cveBatch c.UnchangedCVEs p.2.ImageName p.2.Vulnerabilities
                (fun id => (mapLookup afterImg.Vulnerabilities id).isSome),
              AddedCVEs := cveBatch c.AddedCVEs afterImg.ImageName afterImg.Vulnerabilities
                (fun id => (mapLookup p.2.Vulnerabilities id).isNone) }
          else
            { c with
              UnChangedImages := mapInsert c.UnChangedImages p.1 [p.2, afterImg],
              UnchangedCVEs := cveBatch c.UnchangedCVEs p.1 p.2.Vulnerabilities
                (fun _ => true) }
        | none =>
          { c with
            RemovedImages := mapInsert c.RemovedImages p.1 [p.2],
            RemovedCVEs := cveBatch c.RemovedCVEs p.1 p.2.Vulnerabilities
              (fun _ => true) } := by
  cases hA : mapLookup A p.1 with
  | none =>
    simp only [beforeStep, hA]
    rw [removedLoop_eq]
  | some afterImg =>
    by_cases ht : p.2.Tag ≠ afterImg.Tag
    · simp only [beforeStep, hA, if_pos ht]
      rw [compareImageVulnerabilities_eq]
    · simp only [beforeStep, hA, if_neg ht]
      rw [unchangedLoop_eq]

theorem afterStep_eq (B : List (String × ContainerImage)) (c : HelmComparison)
    (p : String × ContainerImage) :
    afterStep B c p
      = match mapLookup B p.1 with
        | some _ => c
        | none =>
          { c with
            AddedImages := mapInsert c.AddedImages p.1 [p.2],
            AddedCVEs := cveBatch c.AddedCVEs p.1 p.2.Vulnerabilities
              (fun _ => true) } := by
  cases hB : mapLookup B p.1 with
  | none =>
    simp only [afterStep, hB]
    rw [addedLoop_eq]
  | some _ => simp only [afterStep, hB]

/-! ### Facts about the image indexes -/

theorem mem_mapInsert {α : Type} (m : List (String × α)) (k : String) (v : α)
    (q : String × α) (hq : q ∈ mapInsert m k v) : q = (k, v) ∨ q ∈ m := by
  induction m with
  | nil =>
    simp [mapInsert] at hq
    exact Or.inl hq
  | cons p rest ih =>
    by_cases h : p.1 = k
    · rw [show mapInsert (p :: rest) k v = (k, v) :: rest from by simp [mapInsert, h]] at hq
      rcases List.mem_cons.mp hq with h1 | h1
      · exact Or.inl h1
      · exact Or.inr (List.mem_cons_of_mem p h1)
    · rw [show mapInsert (p :: rest) k v = p :: mapInsert rest k v from by
        simp [mapInsert, h]] at hq
      rcases List.mem_cons.mp hq with h1 | h1
      · exact Or.inr (by rw [h1]; exact List.mem_cons_self p rest)
      · rcases ih h1 with h2 | h2
        · exact Or.inl h2
        · exact Or.inr (List.mem_cons_of_mem p h2)

theorem indexImages_invariants (l : List ContainerImage) :
    ∀ m : List (String × ContainerImage),
      keysUnique m → (∀ p ∈ m, p.2.ImageName = p.1) →
      keysUnique (l.foldl (fun m img => mapInsert m img.ImageName img) m) ∧
      (∀ p ∈ l.foldl (fun m img => mapInsert m img.ImageName img) m,
        p.2.ImageName = p.1) := by
  induction l with
  | nil => intro m hu hn; exact ⟨hu, hn⟩
  | cons img rest ih =>
    intro m hu hn
    simp only [List.foldl_cons]
    apply ih
    · exact keysUnique_insert m img.ImageName img hu
    · intro p hp
      rcases mem_mapInsert m img.ImageName img p hp with h1 | h1
      · rw [h1]
      · exact hn p h1

theorem keysUnique_indexImages (l : List ContainerImage) :
    keysUnique (indexImages l) :=
  (indexImages_invariants l [] (by simp [keysUnique, mapKeys]) (by simp)).1

theorem indexImages_name (l : List ContainerImage) (p : String × ContainerImage)
    (hp : p ∈ indexImages l) : p.2.ImageName = p.1 :=
  (indexImages_invariants l [] (by simp [keysUnique, mapKeys]) (by simp)).2 p hp

theorem mem_keys_indexImages_aux (l : List ContainerImage) (n : String) :
    ∀ m : List (String × ContainerImage),
      (n ∈ mapKeys (l.foldl (fun m img => mapInsert m img.ImageName img) m)
        ↔ n ∈ mapKeys m ∨ n ∈ l.map ContainerImage.ImageName) := by
  induction l with
  | nil => intro m; simp
  | cons img rest ih =>
    intro m
    simp only [List.foldl_cons, List.map_cons, List.mem_cons]
    rw [ih, mem_keys_insert_iff]
    tauto

theorem lookup_indexImages_isSome (l : List ContainerImage) (n : String) :
    (mapLookup (indexImages l) n).isSome ↔ n ∈ l.map ContainerImage.ImageName := by
  rw [mapLookup_isSome_iff_mem_keys]
  have := mem_keys_indexImages_aux l n []
  simpa [mapKeys] using this

theorem find?_append_ofb {α : Type} (l1 l2 : List α) (p : α → Bool) :
    (l1 ++ l2).find? p = ofb (l1.find? p) (l2.find? p) := by
  induction l1 with
  | nil => simp [ofb_none]
  | cons a rest ih =>
    cases hp : p a with
    | true => simp [List.find?, hp, ofb_some]
    | false => simp [List.find?, hp, ih]

theorem lookup_indexImages_aux (l : List ContainerImage) (n : String) :
    ∀ m : List (String × ContainerImage),
      mapLookup (l.foldl (fun m img => mapInsert m img.ImageName img) m) n
        = ofb (l.reverse.find? (fun img => img.ImageName == n)) (mapLookup m n) := by
  induction l with
  | nil => intro m; simp [ofb_none]
  | cons img rest ih =>
    intro m
    simp only [List.foldl_cons, List.reverse_cons]
    rw [ih, find?_append_ofb, ← ofb_assoc]
    congr 1
    by_cases h : img.ImageName = n
    · rw [h, mapLookup_insert_self]
      simp [List.find?, h, ofb_some]
    · rw [mapLookup_insert_ne _ _ _ _ (Ne.symm h)]
      have : (img.ImageName == n) = false := by
        simp [h]
      simp [List.find?, this, ofb_none]

/-- Go's map assignment makes the index keep the *last* image carrying a
given name: duplicate names within one chart are silently collapsed. -/
theorem lookup_indexImages_lastwin (l : List ContainerImage) (n : String) :
    mapLookup (indexImages l) n
      = l.reverse.find? (fun img => img.ImageName == n) := by
  have := lookup_indexImages_aux l n []
  rw [indexImages, this]
  simp [mapLookup, ofb_none_right]

theorem lookup_indexImages_of_nodup (l : List ContainerImage)
    (img : ContainerImage) (himg : img ∈ l)
    (hnd : (l.map ContainerImage.ImageName).Nodup) :
    mapLookup (indexImages l) img.ImageName = some img := by
  rw [lookup_indexImages_lastwin]
  have hsome : (l.reverse.find? (fun x => x.ImageName == img.ImageName)).isSome := by
    rw [List.find?_isSome]
    exact ⟨img, List.mem_reverse.mpr himg, by simp⟩
  obtain ⟨x, hx⟩ := Option.isSome_iff_exists.mp hsome
  rw [hx]
  have hxl : x ∈ l := List.mem_reverse.mp (List.mem_of_find?_eq_some hx)
  have hxn : x.ImageName = img.ImageName := by
    have := List.find?_some hx
    simpa using this
  have := List.inj_on_of_nodup_map hnd hxl himg hxn
  rw [this]

theorem mapLookup_eq_some_mem {α : Type} (m : List (String × α)) (k : String) (v : α)
    (h : mapLookup m k = some v) : (k, v) ∈ m := by
  induction m with
  | nil => simp [mapLookup] at h
  | cons p rest ih =>
    by_cases hp : p.1 = k
    · rw [mapLookup, if_pos hp] at h
      have : (k, v) = p := by
        rw [← hp]
        exact Prod.ext rfl (Option.some.inj h).symm
      rw [this]
      exact List.mem_cons_self p rest
    · rw [mapLookup, if_neg hp] at h
      exact List.mem_cons_of_mem p (ih h)

/-! ### Fields each loop step leaves untouched -/

theorem beforeStep_Before (A : List (String × ContainerImage)) (c : HelmComparison)
    (p : String × ContainerImage) : (beforeStep A c p).Before = c.Before := by
  rw [beforeStep_eq]
  cases mapLookup A p.1 with
  | none => rfl
  | some a => by_cases ht : p.2.Tag ≠ a.Tag <;> simp [ht]

theorem beforeStep_After (A : List (String × ContainerImage)) (c : HelmComparison)
    (p : String × ContainerImage) : (beforeStep A c p).After = c.After := by
  rw [beforeStep_eq]
  cases mapLookup A p.1 with
  | none => rfl
  | some a => by_cases ht : p.2.Tag ≠ a.Tag <;> simp [ht]

theorem beforeStep_AddedImages (A : List (String × ContainerImage)) (c : HelmComparison)
    (p : String × ContainerImage) : (beforeStep A c p).AddedImages = c.AddedImages := by
  rw [beforeStep_eq]
  cases mapLookup A p.1 with
  | none => rfl
  | some a => by_cases ht : p.2.Tag ≠ a.Tag <;> simp [ht]

theorem afterStep_Before (B : List (String × ContainerImage)) (c : HelmComparison)
    (p : String × ContainerImage) : (afterStep B c p).Before = c.Before := by
  rw [afterStep_eq]
  cases mapLookup B p.1 <;> rfl

theorem afterStep_After (B : List (String × ContainerImage)) (c : HelmComparison)
    (p : String × ContainerImage) : (afterStep B c p).After = c.After := by
  rw [afterStep_eq]
  cases mapLookup B p.1 <;> rfl

theorem afterStep_RemovedImages (B : List (String × ContainerImage)) (c : HelmComparison)
    (p : String × ContainerImage) : (afterStep B c p).RemovedImages = c.RemovedImages := by
  rw [afterStep_eq]
  cases mapLookup B p.1 <;> rfl

theorem afterStep_ChangedImages (B : List (String × ContainerImage)) (c : HelmComparison)
    (p : String × ContainerImage) : (afterStep B c p).ChangedImages = c.ChangedImages := by
  rw [afterStep_eq]
  cases mapLookup B p.1 <;> rfl

theorem afterStep_UnChangedImages (B : List (String × ContainerImage)) (c : HelmComparison)
    (p : String × ContainerImage) : (afterStep B c p).UnChangedImages = c.UnChangedImages := by
  rw [afterStep_eq]
  cases mapLookup B p.1 <;> rfl

theorem afterStep_RemovedCVEs (B : List (String × ContainerImage)) (c : HelmComparison)
    (p : String × ContainerImage) : (afterStep B c p).RemovedCVEs = c.RemovedCVEs := by
  rw [afterStep_eq]
  cases mapLookup B p.1 <;> rfl

theorem afterStep_UnchangedCVEs (B : List (String × ContainerImage)) (c : HelmComparison)
    (p : String × ContainerImage) : (afterStep B c p).UnchangedCVEs = c.UnchangedCVEs := by
  rw [afterStep_eq]
  cases mapLookup B p.1 <;> rfl

/-! ### Master characterizations of the comparison result -/

theorem compare_RemovedImages_lookup (before after : HelmChart) (n : String) :
    mapLookup (CompareHelmCharts before after).RemovedImages n
      = (mapLookup (indexImages before.ContainsImages) n).bind (fun b =>
          match mapLookup (indexImages after.ContainsImages) n with
          | none => some [b]
          | some _ => none) := by
  have hpres : ∀ (c : HelmComparison) (p : String × ContainerImage),
      p ∈ indexImages after.ContainsImages →
      mapLookup (afterStep (indexImages before.ContainsImages) c p).RemovedImages n
        = mapLookup c.RemovedImages n := by
    intro c p _
    rw [afterStep_RemovedImages]
  have hstep : ∀ (c : HelmComparison) (p : String × ContainerImage),
      p ∈ indexImages before.ContainsImages →
      mapLookup (beforeStep (indexImages after.ContainsImages) c p).RemovedImages n
        = ofb (if p.1 = n then
              (match mapLookup (indexImages after.ContainsImages) n with
               | none => some [p.2]
               | some _ => none)
            else none)
            (mapLookup c.RemovedImages n) := by
    intro c p _
    rw [beforeStep_eq]
    by_cases hpn : p.1 = n
    · rw [hpn]
      cases hAn : mapLookup (indexImages after.ContainsImages) n with
      | none => simp [mapLookup_insert_self, ofb]
      | some a => by_cases ht : p.2.Tag ≠ a.Tag <;> simp [ht, ofb]
    · have hne : n ≠ p.1 := fun he => hpn he.symm
      cases hAp : mapLookup (indexImages after.ContainsImages) p.1 with
      | none => simp [mapLookup_insert_ne, hne, hpn, ofb]
      | some a => by_cases ht : p.2.Tag ≠ a.Tag <;> simp [ht, hpn, ofb]
  have h1 : mapLookup (CompareHelmCharts before after).RemovedImages n
      = mapLookup ((indexImages before.ContainsImages).foldl
          (beforeStep (indexImages after.ContainsImages))
          (initComparison before after)).RemovedImages n :=
    foldl_preserve (afterStep (indexImages before.ContainsImages))
      (fun c => mapLookup c.RemovedImages n) (indexImages after.ContainsImages) hpres _
  have h2 : mapLookup ((indexImages before.ContainsImages).foldl
        (beforeStep (indexImages after.ContainsImages))
        (initComparison before after)).RemovedImages n
      = ofb (lastHit (fun p : String × ContainerImage => if p.1 = n then
            (match mapLookup (indexImages after.ContainsImages) n with
             | none => some [p.2]
             | some _ => none) else none)
          (indexImages before.ContainsImages)) none :=
    foldl_observe (beforeStep (indexImages after.ContainsImages))
      (fun c => mapLookup c.RemovedImages n) _ (indexImages before.ContainsImages) hstep _
  have h3 : lastHit (fun p : String × ContainerImage => if p.1 = n then
        (match mapLookup (indexImages after.ContainsImages) n with
         | none => some [p.2]
         | some _ => none) else none)
      (indexImages before.ContainsImages)
    = (mapLookup (indexImages before.ContainsImages) n).bind (fun b =>
        match mapLookup (indexImages after.ContainsImages) n with
        | none => some [b]
        | some _ => none) :=
    lastHit_keyed_unique _ n (fun b =>
        match mapLookup (indexImages after.ContainsImages) n with
        | none => some [b]
        | some _ => none)
      (keysUnique_indexImages before.ContainsImages)
  rw [h1, h2, ofb_none_right, h3]

theorem compare_ChangedImages_lookup (before after : HelmChart) (n : String) :
    mapLookup (CompareHelmCharts before after).ChangedImages n
      = (mapLookup (indexImages before.ContainsImages) n).bind (fun b =>
          match mapLookup (indexImages after.ContainsImages) n with
          | some a => if b.Tag ≠ a.Tag then some [b, a] else none
          | none => none) := by
  have hpres : ∀ (c : HelmComparison) (p : String × ContainerImage),
      p ∈ indexImages after.ContainsImages →
      mapLookup (afterStep (indexImages before.ContainsImages) c p).ChangedImages n
        = mapLookup c.ChangedImages n := by
    intro c p _
    rw [afterStep_ChangedImages]
  have hstep : ∀ (c : HelmComparison) (p : String × ContainerImage),
      p ∈ indexImages before.ContainsImages →
      mapLookup (beforeStep (indexImages after.ContainsImages) c p).ChangedImages n
        = ofb (if p.1 = n then
              (match mapLookup (indexImages after.ContainsImages) n with
               | some a => if p.2.Tag ≠ a.Tag then some [p.2, a] else none
               | none => none)
            else none)
            (mapLookup c.ChangedImages n) := by
    intro c p _
    rw [beforeStep_eq]
    by_cases hpn : p.1 = n
    · rw [hpn]
      cases hAn : mapLookup (indexImages after.ContainsImages) n with
      | none => simp [ofb]
      | some a =>
        by_cases ht : p.2.Tag ≠ a.Tag <;> simp [ht, mapLookup_insert_self, ofb]
    · have hne : n ≠ p.1 := fun he => hpn he.symm
      cases hAp : mapLookup (indexImages after.ContainsImages) p.1 with
      | none => simp [hpn, ofb]
      | some a =>
        by_cases ht : p.2.Tag ≠ a.Tag <;>
          simp [ht, mapLookup_insert_ne, hne, hpn, ofb]
  have h1 : mapLookup (CompareHelmCharts before after).ChangedImages n
      = mapLookup ((indexImages before.ContainsImages).foldl
          (beforeStep (indexImages after.ContainsImages))
          (initComparison before after)).ChangedImages n :=
    foldl_preserve (afterStep (indexImages before.ContainsImages))
      (fun c => mapLookup c.ChangedImages n) (indexImages after.ContainsImages) hpres _
  have h2 : mapLookup ((indexImages before.ContainsImages).foldl
        (beforeStep (indexImages after.ContainsImages))
        (initComparison before after)).ChangedImages n
      = ofb (lastHit (fun p : String × ContainerImage => if p.1 = n then
            (match mapLookup (indexImages after.ContainsImages) n with
             | some a => if p.2.Tag ≠ a.Tag then some [p.2, a] else none
             | none => none) else none)
          (indexImages before.ContainsImages)) none :=
    foldl_observe (beforeStep (indexImages after.ContainsImages))
      (fun c => mapLookup c.ChangedImages n) _ (indexImages before.ContainsImages) hstep _
  have h3 : lastHit (fun p : String × ContainerImage => if p.1 = n then
        (match mapLookup (indexImages after.ContainsImages) n with
         | some a => if p.2.Tag ≠ a.Tag then some [p.2, a] else none
         | none => none) else none)
      (indexImages before.ContainsImages)
    = (mapLookup (indexImages before.ContainsImages) n).bind (fun b =>
        match mapLookup (indexImages after.ContainsImages) n with
        | some a => if b.Tag ≠ a.Tag then some [b, a] else none
        | none => none) :=
    lastHit_keyed_unique _ n (fun b =>
        match mapLookup (indexImages after.ContainsImages) n with
        | some a => if b.Tag ≠ a.Tag then some [b, a] else none
        | none => none)
      (keysUnique_indexImages before.ContainsImages)
  rw [h1, h2, ofb_none_right, h3]

theorem compare_UnChangedImages_lookup (before after : HelmChart) (n : String) :
    mapLookup (CompareHelmCharts before after).UnChangedImages n
      = (mapLookup (indexImages before.ContainsImages) n).bind (fun b =>
          match mapLookup (indexImages after.ContainsImages) n with
          | some a => if b.Tag ≠ a.Tag then none else some [b, a]
          | none => none) := by
  have hpres : ∀ (c : HelmComparison) (p : String × ContainerImage),
      p ∈ indexImages after.ContainsImages →
      mapLookup (afterStep (indexImages before.ContainsImages) c p).UnChangedImages n
        = mapLookup c.UnChangedImages n := by
    intro c p _
    rw [afterStep_UnChangedImages]
  have hstep : ∀ (c : HelmComparison) (p : String × ContainerImage),
      p ∈ indexImages before.ContainsImages →
      mapLookup (beforeStep (indexImages after.ContainsImages) c p).UnChangedImages n
        = ofb (if p.1 = n then
              (match mapLookup (indexImages after.ContainsImages) n with
               | some a => if p.2.Tag ≠ a.Tag then none else some [p.2, a]
               | none => none)
            else none)
            (mapLookup c.UnChangedImages n) := by
    intro c p _
    rw [beforeStep_eq]
    by_cases hpn : p.1 = n
    · rw [hpn]
      cases hAn : mapLookup (indexImages after.ContainsImages) n with
      | none => simp [ofb]
      | some a =>
        by_cases ht : p.2.Tag ≠ a.Tag <;> simp [ht, mapLookup_insert_self, ofb]
    · have hne : n ≠ p.1 := fun he => hpn he.symm
      cases hAp : mapLookup (indexImages after.ContainsImages) p.1 with
      | none => simp [hpn, ofb]
      | some a =>
        by_cases ht : p.2.Tag ≠ a.Tag <;>
          simp [ht, mapLookup_insert_ne, hne, hpn, ofb]
  have h1 : mapLookup (CompareHelmCharts before after).UnChangedImages n
      = mapLookup ((indexImages before.ContainsImages).foldl
          (beforeStep (indexImages after.ContainsImages))
          (initComparison before after)).UnChangedImages n :=
    foldl_preserve (afterStep (indexImages before.ContainsImages))
      (fun c => mapLookup c.UnChangedImages n) (indexImages after.ContainsImages) hpres _
  have h2 : mapLookup ((indexImages before.ContainsImages).foldl
        (beforeStep (indexImages after.ContainsImages))
        (initComparison before after)).UnChangedImages n
      = ofb (lastHit (fun p : String × ContainerImage => if p.1 = n then
            (match mapLookup (indexImages after.ContainsImages) n with
             | some a => if p.2.Tag ≠ a.Tag then none else some [p.2, a]
             | none => none) else none)
          (indexImages before.ContainsImages)) none :=
    foldl_observe (beforeStep (indexImages after.ContainsImages))
      (fun c => mapLookup c.UnChangedImages n) _ (indexImages before.ContainsImages) hstep _
  have h3 : lastHit (fun p : String × ContainerImage => if p.1 = n then
        (match mapLookup (indexImages after.ContainsImages) n with
         | some a => if p.2.Tag ≠ a.Tag then none else some [p.2, a]
         | none => none) else none)
      (indexImages before.ContainsImages)
    = (mapLookup (indexImages before.ContainsImages) n).bind (fun b =>
        match mapLookup (indexImages after.ContainsImages) n with
        | some a => if b.Tag ≠ a.Tag then none else some [b, a]
        | none => none) :=
    lastHit_keyed_unique _ n (fun b =>
        match mapLookup (indexImages after.ContainsImages) n with
        | some a => if b.Tag ≠ a.Tag then none else some [b, a]
        | none => none)
      (keysUnique_indexImages before.ContainsImages)
  rw [h1, h2, ofb_none_right, h3]

theorem compare_AddedImages_lookup (before after : HelmChart) (n : String) :
    mapLookup (CompareHelmCharts before after).AddedImages n
      = (mapLookup (indexImages after.ContainsImages) n).bind (fun a =>
          match mapLookup (indexImages before.ContainsImages) n with
          | none => some [a]
          | some _ => none) := by
  have hpres : ∀ (c : HelmComparison) (p : String × ContainerImage),
      p ∈ indexImages before.ContainsImages →
      mapLookup (beforeStep (indexImages after.ContainsImages) c p).AddedImages n
        = mapLookup c.AddedImages n := by
    intro c p _
    rw [beforeStep_AddedImages]
  have hstep : ∀ (c : HelmComparison) (p : String × ContainerImage),
      p ∈ indexImages after.ContainsImages →
      mapLookup (afterStep (indexImages before.ContainsImages) c p).AddedImages n
        = ofb (if p.1 = n then
              (match mapLookup (indexImages before.ContainsImages) n with
               | none => some [p.2]
               | some _ => none)
            else none)
            (mapLookup c.AddedImages n) := by
    intro c p _
    rw [afterStep_eq]
    by_cases hpn : p.1 = n
    · rw [hpn]
      cases hBn : mapLookup (indexImages before.ContainsImages) n with
      | none => simp [mapLookup_insert_self, ofb]
      | some b => simp [ofb]
    · have hne : n ≠ p.1 := fun he => hpn he.symm
      cases hBp : mapLookup (indexImages before.ContainsImages) p.1 with
      | none => simp [mapLookup_insert_ne, hne, hpn, ofb]
      | some b => simp [hpn, ofb]
  have h1 : mapLookup ((indexImages before.ContainsImages).foldl
        (beforeStep (indexImages after.ContainsImages))
        (initComparison before after)).AddedImages n
      = mapLookup (initComparison before after).AddedImages n :=
    foldl_preserve (beforeStep (indexImages after.ContainsImages))
      (fun c => mapLookup c.AddedImages n) (indexImages before.ContainsImages) hpres _
  have h2 : mapLookup (CompareHelmCharts before after).AddedImages n
      = ofb (lastHit (fun p : String × ContainerImage => if p.1 = n then
            (match mapLookup (indexImages before.ContainsImages) n with
             | none => some [p.2]
             | some _ => none) else none)
          (indexImages after.ContainsImages))
          (mapLookup ((indexImages before.ContainsImages).foldl
            (beforeStep (indexImages after.ContainsImages))
            (initComparison before after)).AddedImages n) :=
    foldl_observe (afterStep (indexImages before.ContainsImages))
      (fun c => mapLookup c.AddedImages n) _ (indexImages after.ContainsImages) hstep _
  have h3 : lastHit (fun p : String × ContainerImage => if p.1 = n then
        (match mapLookup (indexImages before.ContainsImages) n with
         | none => some [p.2]
         | some _ => none) else none)
      (indexImages after.ContainsImages)
    = (mapLookup (indexImages after.ContainsImages) n).bind (fun a =>
        match mapLookup (indexImages before.ContainsImages) n with
        | none => some [a]
        | some _ => none) :=
    lastHit_keyed_unique _ n (fun a =>
        match mapLookup (indexImages before.ContainsImages) n with
        | none => some [a]
        | some _ => none)
      (keysUnique_indexImages after.ContainsImages)
  rw [h2, h1, h3]
  exact ofb_none_right _

theorem compare_RemovedCVEs_lookup (before after : HelmChart) (id n : String) :
    cveLookup (CompareHelmCharts before after).RemovedCVEs id n
      = (mapLookup (indexImages before.ContainsImages) n).bind (fun b =>
          match mapLookup (indexImages after.ContainsImages) n with
          | none => lastLookup b.Vulnerabilities id
          | some a => if b.Tag ≠ a.Tag then
              (if (mapLookup a.Vulnerabilities id).isNone then
                lastLookup b.Vulnerabilities id else none)
            else none) := by
  have hpres : ∀ (c : HelmComparison) (p : String × ContainerImage),
      p ∈ indexImages after.ContainsImages →
      cveLookup (afterStep (indexImages before.ContainsImages) c p).RemovedCVEs id n
        = cveLookup c.RemovedCVEs id n := by
    intro c p _
    rw [afterStep_RemovedCVEs]
  have hstep : ∀ (c : HelmComparison) (p : String × ContainerImage),
      p ∈ indexImages before.ContainsImages →
      cveLookup (beforeStep (indexImages after.ContainsImages) c p).RemovedCVEs id n
        = ofb (if p.1 = n then
              (match mapLookup (indexImages after.ContainsImages) n with
               | none => lastLookup p.2.Vulnerabilities id
               | some a => if p.2.Tag ≠ a.Tag then
                   (if (mapLookup a.Vulnerabilities id).isNone then
                     lastLookup p.2.Vulnerabilities id else none)
                 else none)
            else none)
            (cveLookup c.RemovedCVEs id n) := by
    intro c p hp
    have hname : p.2.ImageName = p.1 := indexImages_name before.ContainsImages p hp
    rw [beforeStep_eq, hname]
    by_cases hpn : p.1 = n
    · rw [hpn]
      cases hAn : mapLookup (indexImages after.ContainsImages) n with
      | none => simp [cveLookup_cveBatch, ofb]
      | some a =>
        by_cases ht : p.2.Tag ≠ a.Tag <;> simp [ht, cveLookup_cveBatch, ofb]
    · have hne : n ≠ p.1 := fun he => hpn he.symm
      cases hAp : mapLookup (indexImages after.ContainsImages) p.1 with
      | none => simp [cveLookup_cveBatch, hpn, hne, ofb]
      | some a =>
        by_cases ht : p.2.Tag ≠ a.Tag <;> simp [ht, cveLookup_cveBatch, hpn, hne, ofb]
  have h1 : cveLookup (CompareHelmCharts before after).RemovedCVEs id n
      = cveLookup ((indexImages before.ContainsImages).foldl
          (beforeStep (indexImages after.ContainsImages))
          (initComparison before after)).RemovedCVEs id n :=
    foldl_preserve (afterStep (indexImages before.ContainsImages))
      (fun c => cveLookup c.RemovedCVEs id n) (indexImages after.ContainsImages) hpres _
  have h2 : cveLookup ((indexImages before.ContainsImages).foldl
        (beforeStep (indexImages after.ContainsImages))
        (initComparison before after)).RemovedCVEs id n
      = ofb (lastHit (fun p : String × ContainerImage => if p.1 = n then
            (match mapLookup (indexImages after.ContainsImages) n with
             | none => lastLookup p.2.Vulnerabilities id
             | some a => if p.2.Tag ≠ a.Tag then
                 (if (mapLookup a.Vulnerabilities id).isNone then
                   lastLookup p.2.Vulnerabilities id else none)
               else none) else none)
          (indexImages before.ContainsImages)) none :=
    foldl_observe (beforeStep (indexImages after.ContainsImages))
      (fun c => cveLookup c.RemovedCVEs id n) _ (indexImages before.ContainsImages) hstep _
  have h3 : lastHit (fun p : String × ContainerImage => if p.1 = n then
        (match mapLookup (indexImages after.ContainsImages) n with
         | none => lastLookup p.2.Vulnerabilities id
         | some a => if p.2.Tag ≠ a.Tag then
             (if (mapLookup a.Vulnerabilities id).isNone then
               lastLookup p.2.Vulnerabilities id else none)
           else none) else none)
      (indexImages before.ContainsImages)
    = (mapLookup (indexImages before.ContainsImages) n).bind (fun b =>
        match mapLookup (indexImages after.ContainsImages) n with
        | none => lastLookup b.Vulnerabilities id
        | some a => if b.Tag ≠ a.Tag then
            (if (mapLookup a.Vulnerabilities id).isNone then
              lastLookup b.Vulnerabilities id else none)
          else none) :=
    lastHit_keyed_unique _ n (fun b =>
        match mapLookup (indexImages after.ContainsImages) n with
        | none => lastLookup b.Vulnerabilities id
        | some a => if b.Tag ≠ a.Tag then
            (if (mapLookup a.Vulnerabilities id).isNone then
              lastLookup b.Vulnerabilities id else none)
          else none)
      (keysUnique_indexImages before.ContainsImages)
  rw [h1, h2, ofb_none_right, h3]

theorem compare_UnchangedCVEs_lookup (before after : HelmChart) (id n : String) :
    cveLookup (CompareHelmCharts before after).UnchangedCVEs id n
      = (mapLookup (indexImages before.ContainsImages) n).bind (fun b =>
          match mapLookup (indexImages after.ContainsImages) n with
          | some a => if b.Tag ≠ a.Tag then
              (if (mapLookup a.Vulnerabilities id).isSome then
                lastLookup b.Vulnerabilities id else none)
            else lastLookup b.Vulnerabilities id
          | none => none) := by
  have hpres : ∀ (c : HelmComparison) (p : String × ContainerImage),
      p ∈ indexImages after.ContainsImages →
      cveLookup (afterStep (indexImages before.ContainsImages) c p).UnchangedCVEs id n
        = cveLookup c.UnchangedCVEs id n := by
    intro c p _
    rw [afterStep_UnchangedCVEs]
  have hstep : ∀ (c : HelmComparison) (p : String × ContainerImage),
      p ∈ indexImages before.ContainsImages →
      cveLookup (beforeStep (indexImages after.ContainsImages) c p).UnchangedCVEs id n
        = ofb (if p.1 = n then
              (match mapLookup (indexImages after.ContainsImages) n with
               | some a => if p.2.Tag ≠ a.Tag then
                   (if (mapLookup a.Vulnerabilities id).isSome then
                     lastLookup p.2.Vulnerabilities id else none)
                 else lastLookup p.2.Vulnerabilities id
               | none => none)
            else none)
            (cveLookup c.UnchangedCVEs id n) := by
    intro c p hp
    have hname : p.2.ImageName = p.1 := indexImages_name before.ContainsImages p hp
    rw [beforeStep_eq, hname]
    by_cases hpn : p.1 = n
    · rw [hpn]
      cases hAn : mapLookup (indexImages after.ContainsImages) n with
      | none => simp [ofb]
      | some a =>
        by_cases ht : p.2.Tag ≠ a.Tag <;> simp [ht, cveLookup_cveBatch, ofb]
    · have hne : n ≠ p.1 := fun he => hpn he.symm
      cases hAp : mapLookup (indexImages after.ContainsImages) p.1 with
      | none => simp [hpn, ofb]
      | some a =>
        by_cases ht : p.2.Tag ≠ a.Tag <;> simp [ht, cveLookup_cveBatch, hpn, hne, ofb]
  have h1 : cveLookup (CompareHelmCharts before after).UnchangedCVEs id n
      = cveLookup ((indexImages before.ContainsImages).foldl
          (beforeStep (indexImages after.ContainsImages))
          (initComparison before after)).UnchangedCVEs id n :=
    foldl_preserve (afterStep (indexImages before.ContainsImages))
      (fun c => cveLookup c.UnchangedCVEs id n) (indexImages after.ContainsImages) hpres _
  have h2 : cveLookup ((indexImages before.ContainsImages).foldl
        (beforeStep (indexImages after.ContainsImages))
        (initComparison before after)).UnchangedCVEs id n
      = ofb (lastHit (fun p : String × ContainerImage => if p.1 = n then
            (match mapLookup (indexImages after.ContainsImages) n with
             | some a => if p.2.Tag ≠ a.Tag then
                 (if (mapLookup a.Vulnerabilities id).isSome then
                   lastLookup p.2.Vulnerabilities id else none)
               else lastLookup p.2.Vulnerabilities id
             | none => none) else none)
          (indexImages before.ContainsImages)) none :=
    foldl_observe (beforeStep (indexImages after.ContainsImages))
      (fun c => cveLookup c.UnchangedCVEs id n) _ (indexImages before.ContainsImages) hstep _
  have h3 : lastHit (fun p : String × ContainerImage => if p.1 = n then
        (match mapLookup (indexImages after.ContainsImages) n with
         | some a => if p.2.Tag ≠ a.Tag then
             (if (mapLookup a.Vulnerabilities id).isSome then
               lastLookup p.2.Vulnerabilities id else none)
           else lastLookup p.2.Vulnerabilities id
         | none => none) else none)
      (indexImages before.ContainsImages)
    = (mapLookup (indexImages before.ContainsImages) n).bind (fun b =>
        match mapLookup (indexImages after.ContainsImages) n with
        | some a => if b.Tag ≠ a.Tag then
            (if (mapLookup a.Vulnerabilities id).isSome then
              lastLookup b.Vulnerabilities id else none)
          else lastLookup b.Vulnerabilities id
        | none => none) :=
    lastHit_keyed_unique _ n (fun b =>
        match mapLookup (indexImages after.ContainsImages) n with
        | some a => if b.Tag ≠ a.Tag then
            (if (mapLookup a.Vulnerabilities id).isSome then
              lastLookup b.Vulnerabilities id else none)
          else lastLookup b.Vulnerabilities id
        | none => none)
      (keysUnique_indexImages before.ContainsImages)
  rw [h1, h2, ofb_none_right, h3]

theorem compare_AddedCVEs_lookup (before after : HelmChart) (id n : String) :
    cveLookup (CompareHelmCharts before after).AddedCVEs id n
      = match mapLookup (indexImages before.ContainsImages) n,
            mapLookup (indexImages after.ContainsImages) n with
        | none, some a => lastLookup a.Vulnerabilities id
        | some b, some a => if b.Tag ≠ a.Tag then
            (if (mapLookup b.Vulnerabilities id).isNone then
              lastLookup a.Vulnerabilities id else none)
          else none
        | _, none => none := by
  have hstepB : ∀ (c : HelmComparison) (p : String × ContainerImage),
      p ∈ indexImages before.ContainsImages →
      cveLookup (beforeStep (indexImages after.ContainsImages) c p).AddedCVEs id n
        = ofb (if p.1 = n then
              (match mapLookup (indexImages after.ContainsImages) n with
               | some a => if p.2.Tag ≠ a.Tag then
                   (if (mapLookup p.2.Vulnerabilities id).isNone then
                     lastLookup a.Vulnerabilities id else none)
                 else none
               | none => none)
            else none)
            (cveLookup c.AddedCVEs id n) := by
    intro c p _
    rw [beforeStep_eq]
    by_cases hpn : p.1 = n
    · rw [hpn]
      cases hAn : mapLookup (indexImages after.ContainsImages) n with
      | none => simp [ofb]
      | some a =>
        have haname : a.ImageName = n :=
          indexImages_name after.ContainsImages (n, a) (mapLookup_eq_some_mem _ _ _ hAn)
        by_cases ht : p.2.Tag ≠ a.Tag <;>
          simp [ht, haname, cveLookup_cveBatch, ofb]
    · have hne : n ≠ p.1 := fun he => hpn he.symm
      cases hAp : mapLookup (indexImages after.ContainsImages) p.1 with
      | none => simp [hpn, ofb]
      | some a =>
        have haname : a.ImageName = p.1 :=
          indexImages_name after.ContainsImages (p.1, a) (mapLookup_eq_some_mem _ _ _ hAp)
        by_cases ht : p.2.Tag ≠ a.Tag <;>
          simp [ht, haname, cveLookup_cveBatch, hpn, hne, ofb]
  have hstepA : ∀ (c : HelmComparison) (p : String × ContainerImage),
      p ∈ indexImages after.ContainsImages →
      cveLookup (afterStep (indexImages before.ContainsImages) c p).AddedCVEs id n
        = ofb (if p.1 = n then
              (match mapLookup (indexImages before.ContainsImages) n with
               | none => lastLookup p.2.Vulnerabilities id
               | some _ => none)
            else none)
            (cveLookup c.AddedCVEs id n) := by
    intro c p _
    rw [afterStep_eq]
    by_cases hpn : p.1 = n
    · rw [hpn]
      cases hBn : mapLookup (indexImages before.ContainsImages) n with
      | none => simp [cveLookup_cveBatch, ofb]
      | some b => simp [ofb]
    · have hne : n ≠ p.1 := fun he => hpn he.symm
      cases hBp : mapLookup (indexImages before.ContainsImages) p.1 with
      | none => simp [cveLookup_cveBatch, hpn, hne, ofb]
      | some b => simp [hpn, ofb]
  have h1 : cveLookup (CompareHelmCharts before after).AddedCVEs id n
      = ofb (lastHit (fun p : String × ContainerImage => if p.1 = n then
            (match mapLookup (indexImages before.ContainsImages) n with
             | none => lastLookup p.2.Vulnerabilities id
             | some _ => none) else none)
          (indexImages after.ContainsImages))
          (cveLookup ((indexImages before.ContainsImages).foldl
            (beforeStep (indexImages after.ContainsImages))
            (initComparison before after)).AddedCVEs id n) :=
    foldl_observe (afterStep (indexImages before.ContainsImages))
      (fun c => cveLookup c.AddedCVEs id n) _ (indexImages after.ContainsImages) hstepA _
  have h2 : cveLookup ((indexImages before.ContainsImages).foldl
        (beforeStep (indexImages after.ContainsImages))
        (initComparison before after)).AddedCVEs id n
      = ofb (lastHit (fun p : String × ContainerImage => if p.1 = n then
            (match mapLookup (indexImages after.ContainsImages) n with
             | some a => if p.2.Tag ≠ a.Tag then
                 (if (mapLookup p.2.Vulnerabilities id).isNone then
                   lastLookup a.Vulnerabilities id else none)
               else none
             | none => none) else none)
          (indexImages before.ContainsImages)) none :=
    foldl_observe (beforeStep (indexImages after.ContainsImages))
      (fun c => cveLookup c.AddedCVEs id n) _ (indexImages before.ContainsImages) hstepB _
  have h3 : lastHit (fun p : String × ContainerImage => if p.1 = n then
        (match mapLookup (indexImages before.ContainsImages) n with
         | none => lastLookup p.2.Vulnerabilities id
         | some _ => none) else none)
      (indexImages after.ContainsImages)
    = (mapLookup (indexImages after.ContainsImages) n).bind (fun a =>
        match mapLookup (indexImages before.ContainsImages) n with
        | none => lastLookup a.Vulnerabilities id
        | some _ => none) :=
    lastHit_keyed_unique _ n (fun a =>
        match mapLookup (indexImages before.ContainsImages) n with
        | none => lastLookup a.Vulnerabilities id
        | some _ => none)
      (keysUnique_indexImages after.ContainsImages)
  have h4 : lastHit (fun p : String × ContainerImage => if p.1 = n then
        (match mapLookup (indexImages after.ContainsImages) n with
         | some a => if p.2.Tag ≠ a.Tag then
             (if (mapLookup p.2.Vulnerabilities id).isNone then
               lastLookup a.Vulnerabilities id else none)
           else none
         | none => none) else none)
      (indexImages before.ContainsImages)
    = (mapLookup (indexImages before.ContainsImages) n).bind (fun b =>
        match mapLookup (indexImages after.ContainsImages) n with
        | some a => if b.Tag ≠ a.Tag then
            (if (mapLookup b.Vulnerabilities id).isNone then
              lastLookup a.Vulnerabilities id else none)
          else none
        | none => none) :=
    lastHit_keyed_unique _ n (fun b =>
        match mapLookup (indexImages after.ContainsImages) n with
        | some a => if b.Tag ≠ a.Tag then
            (if (mapLookup b.Vulnerabilities id).isNone then
              lastLookup a.Vulnerabilities id else none)
          else none
        | none => none)
      (keysUnique_indexImages before.ContainsImages)
  rw [h1, h2, ofb_none_right, h3, h4]
  cases hBn : mapLookup (indexImages before.ContainsImages) n <;>
    cases hAn : mapLookup (indexImages after.ContainsImages) n <;>
      simp [ofb_none, ofb_none_right]

theorem compare_Before (before after : HelmChart) :
    (CompareHelmCharts before after).Before = before := by
  have h1 : (CompareHelmCharts before after).Before
      = ((indexImages before.ContainsImages).foldl
          (beforeStep (indexImages after.ContainsImages))
          (initComparison before after)).Before :=
    foldl_preserve (afterStep (indexImages before.ContainsImages))
      (fun c => c.Before) (indexImages after.ContainsImages)
      (fun c p _ => afterStep_Before _ c p) _
  have h2 : ((indexImages before.ContainsImages).foldl
        (beforeStep (indexImages after.ContainsImages))
        (initComparison before after)).Before
      = (initComparison before after).Before :=
    foldl_preserve (beforeStep (indexImages after.ContainsImages))
      (fun c => c.Before) (indexImages before.ContainsImages)
      (fun c p _ => beforeStep_Before _ c p) _
  rw [h1, h2]
  rfl

theorem compare_After (before after : HelmChart) :
    (CompareHelmCharts before after).After = after := by
  have h1 : (CompareHelmCharts before after).After
      = ((indexImages before.ContainsImages).foldl
          (beforeStep (indexImages after.ContainsImages))
          (initComparison before after)).After :=
    foldl_preserve (afterStep (indexImages before.ContainsImages))
      (fun c => c.After) (indexImages after.ContainsImages)
      (fun c p _ => afterStep_After _ c p) _
  have h2 : ((indexImages before.ContainsImages).foldl
        (beforeStep (indexImages after.ContainsImages))
        (initComparison before after)).After
      = (initComparison before after).After :=
    foldl_preserve (beforeStep (indexImages after.ContainsImages))
      (fun c => c.After) (indexImages before.ContainsImages)
      (fun c p _ => beforeStep_After _ c p) _
  rw [h1, h2]
  rfl

/-! ### Report rendering (helmscan.go, lines 375–455 and 522–602) -/

/-- The fixed severity order `[]string{"critical", "high", "medium", "low"}`
(helmscan.go lines 386 and 523). -/
def severities : List String := ["critical", "high", "medium", "low"]

/-- Go `m[k]++` on a `map[string]int` (zero value 0). -/
def bumpCount (m : List (String × Nat)) (k : String) : List (String × Nat) :=
  mapInsert m k ((mapLookup m k).getD 0 + 1)

/-- The per-severity counting loops over a chart's images
(helmscan.go lines 390–399 and 529–538). -/
def chartSeverityCounts (imgs : List ContainerImage) : List (String × Nat) :=
  imgs.foldl (fun m img =>
    img.Vulnerabilities.foldl (fun m q => bumpCount m q.2.Severity) m) []

/-- `reports.SeverityCount` as populated by `generateJSONSeverityCounts`. -/
structure SeverityCount where
  Severity : String
  Current : Nat
  Previous : Nat
  Difference : Int
  deriving Repr, DecidableEq, Inhabited

/-- `generateJSONSeverityCounts` (helmscan.go, lines 522–552). -/
def generateJSONSeverityCounts (comparison : HelmComparison) : List SeverityCount :=
  let prevCounts := chartSeverityCounts comparison.Before.ContainsImages
  let currentCounts := chartSeverityCounts comparison.After.ContainsImages
  severities.map (fun severity =>
    { Severity := severity,
      Current := (mapLookup currentCounts severity).getD 0,
      Previous := (mapLookup prevCounts severity).getD 0,
      Difference := ((mapLookup currentCounts severity).getD 0 : Int)
        - ((mapLookup prevCounts severity).getD 0 : Int) })

/-- Go `fmt.Sprintf("%+d", n)`: the decimal rendering that always carries
an explicit sign.  Modelled from the `fmt` documentation (the `+` flag
always prints a sign for numeric verbs). -/
def formatSignedInt (n : Int) : String :=
  if 0 ≤ n then "+" ++ toString n else toString n

/-- The severity-table rows of `generateMarkdownReport`
(helmscan.go, lines 386–408). -/
def markdownSeverityRows (comparison : HelmComparison) : List String :=
  let prevCounts := chartSeverityCounts comparison.Before.ContainsImages
  let currentCounts := chartSeverityCounts comparison.After.ContainsImages
  severities.map (fun severity =>
    "| " ++ severity ++ " | " ++ toString ((mapLookup currentCounts severity).getD 0)
      ++ " | " ++ toString ((mapLookup prevCounts severity).getD 0)
      ++ " | " ++ formatSignedInt (((mapLookup currentCounts severity).getD 0 : Int)
            - ((mapLookup prevCounts severity).getD 0 : Int)) ++ " |")

/-- The image-table rows of `generateMarkdownReport` (helmscan.go, lines
416–436): four loops over the four classification maps, each appending a
row per entry in map iteration order (no sorting).  Go's `images[0]` /
`images[1]` indexing is rendered with `getD`; every entry the comparison
produces has the required length. -/
def markdownImageRows (c : HelmComparison) : List String :=
  c.AddedImages.map (fun p =>
    "| " ++ p.1 ++ " | Added | - | " ++ (p.2.getD 0 default).Repository ++ " | - | "
      ++ (p.2.getD 0 default).Tag ++ " |")
  ++ c.RemovedImages.map (fun p =>
    "| " ++ p.1 ++ " | Removed | " ++ (p.2.getD 0 default).Repository ++ " | - | "
      ++ (p.2.getD 0 default).Tag ++ " | - |")
  ++ c.ChangedImages.map (fun p =>
    "| " ++ p.1 ++ " | Changed | " ++ (p.2.getD 0 default).Repository ++ " | "
      ++ (p.2.getD 1 default).Repository ++ " | " ++ (p.2.getD 0 default).Tag ++ " | "
      ++ (p.2.getD 1 default).Tag ++ " |")
  ++ c.UnChangedImages.map (fun p =>
    "| " ++ p.1 ++ " | Unchanged | " ++ (p.2.getD 0 default).Repository ++ " | "
      ++ (p.2.getD 1 default).Repository ++ " | " ++ (p.2.getD 0 default).Tag ++ " | "
      ++ (p.2.getD 1 default).Tag ++ " |")

/-- The Images section of the Markdown report (helmscan.go, lines
412–439): header, the rows joined with a newline, then a blank line. -/
def markdownImagesSection (c : HelmComparison) : String :=
  "### Images\n\n"
    ++ "| Image Name | Status | Before Repo | After Repo | Before Tag | After Tag |\n"
    ++ "|------------|--------|-------------|------------|------------|-----------|\n"
    ++ String.intercalate "\n" (markdownImageRows c) ++ "\n\n"

/-- `reports.ImageChange` as populated by `generateJSONImageChanges`
(unset Go string fields keep the zero value `""`). -/
structure ImageChange where
  Name : String
  Status : String
  BeforeRepo : String
  AfterRepo : String
  BeforeTag : String
  AfterTag : String
  deriving Repr, DecidableEq, Inhabited

/-- `generateJSONImageChanges` (helmscan.go, lines 554–602).  Note the
Unchanged loop populates `AfterRepo`/`AfterTag` from `images[0]`, the
before image. -/
def generateJSONImageChanges (c : HelmComparison) : List ImageChange :=
  c.AddedImages.map (fun p =>
    { Name := p.1, Status := "Added", BeforeRepo := "",
      AfterRepo := (p.2.getD 0 default).Repository,
      BeforeTag := "", AfterTag := (p.2.getD 0 default).Tag })
  ++ c.RemovedImages.map (fun p =>
    { Name := p.1, Status := "Removed", BeforeRepo := (p.2.getD 0 default).Repository,
      AfterRepo := "", BeforeTag := (p.2.getD 0 default).Tag, AfterTag := "" })
  ++ c.ChangedImages.map (fun p =>
    { Name := p.1, Status := "Changed", BeforeRepo := (p.2.getD 0 default).Repository,
      AfterRepo := (p.2.getD 1 default).Repository,
      BeforeTag := (p.2.getD 0 default).Tag, AfterTag := (p.2.getD 1 default).Tag })
  ++ c.UnChangedImages.map (fun p =>
    { Name := p.1, Status := "Unchanged", BeforeRepo := (p.2.getD 0 default).Repository,
      AfterRepo := (p.2.getD 0 default).Repository,
      BeforeTag := (p.2.getD 0 default).Tag, AfterTag := (p.2.getD 0 default).Tag })

/-- The number of vulnerabilities of severity `sev` across a chart's
images, counted the way the spec describes it: the sum over all images of
the size of the per-image filtered vulnerability map. -/
def severityTotal (imgs : List ContainerImage) (sev : String) : Nat :=
  (imgs.map (fun img =>
    (img.Vulnerabilities.filter (fun q => q.2.Severity == sev)).length)).sum

theorem bumpCount_getD (m : List (String × Nat)) (k sev : String) :
    (mapLookup (bumpCount m k) sev).getD 0
      = if k = sev then (mapLookup m sev).getD 0 + 1 else (mapLookup m sev).getD 0 := by
  by_cases h : k = sev
  · subst h
    rw [bumpCount, mapLookup_insert_self, if_pos rfl]
    rfl
  · rw [bumpCount, mapLookup_insert_ne _ _ _ _ (fun he => h he.symm), if_neg h]

theorem severityCounts_vulnLoop (sev : String) (l : List (String × Vulnerability)) :
    ∀ m : List (String × Nat),
      (mapLookup (l.foldl (fun m q => bumpCount m q.2.Severity) m) sev).getD 0
        = (mapLookup m sev).getD 0
          + (l.filter (fun q => q.2.Severity == sev)).length := by
  induction l with
  | nil => intro m; simp
  | cons q rest ih =>
    intro m
    simp only [List.foldl_cons]
    rw [ih]
    by_cases h : q.2.Severity = sev
    · rw [bumpCount_getD, if_pos h]
      simp [List.filter_cons, h]
      omega
    · rw [bumpCount_getD, if_neg h]
      simp [List.filter_cons, h]

theorem chartSeverityCounts_spec (imgs : List ContainerImage) (sev : String) :
    (mapLookup (chartSeverityCounts imgs) sev).getD 0 = severityTotal imgs sev := by
  have aux : ∀ m : List (String × Nat),
      (mapLookup (imgs.foldl (fun m img =>
          img.Vulnerabilities.foldl (fun m q => bumpCount m q.2.Severity) m) m) sev).getD 0
        = (mapLookup m sev).getD 0 + severityTotal imgs sev := by
    induction imgs with
    | nil => intro m; simp [severityTotal]
    | cons img rest ih =>
      intro m
      simp only [List.foldl_cons]
      rw [ih, severityCounts_vulnLoop]
      simp [severityTotal]
      omega
  have := aux []
  rw [chartSeverityCounts, this]
  simp [mapLookup]

/-! ### Support for the self-comparison claim -/

theorem beforeFold_unchangedOnly (A' : List (String × ContainerImage))
    (l : List (String × ContainerImage))
    (hall : ∀ p ∈ l, ∃ a, mapLookup A' p.1 = some a ∧ p.2.Tag = a.Tag)
    (c : HelmComparison) :
    (l.foldl (beforeStep A') c).AddedImages = c.AddedImages ∧
    (l.foldl (beforeStep A') c).RemovedImages = c.RemovedImages ∧
    (l.foldl (beforeStep A') c).ChangedImages = c.ChangedImages ∧
    (l.foldl (beforeStep A') c).AddedCVEs = c.AddedCVEs ∧
    (l.foldl (beforeStep A') c).RemovedCVEs = c.RemovedCVEs := by
  refine ⟨foldl_preserve _ (fun c => c.AddedImages) l
      (fun c p hp => beforeStep_AddedImages A' c p) c,
    foldl_preserve _ (fun c => c.RemovedImages) l (fun c p hp => ?_) c,
    foldl_preserve _ (fun c => c.ChangedImages) l (fun c p hp => ?_) c,
    foldl_preserve _ (fun c => c.AddedCVEs) l (fun c p hp => ?_) c,
    foldl_preserve _ (fun c => c.RemovedCVEs) l (fun c p hp => ?_) c⟩ <;>
  · obtain ⟨a, ha, htag⟩ := hall p hp
    simp [beforeStep_eq, ha, htag]

theorem compare_self_shape (A : HelmChart) :
    (CompareHelmCharts A A).AddedImages = [] ∧
    (CompareHelmCharts A A).RemovedImages = [] ∧
    (CompareHelmCharts A A).ChangedImages = [] ∧
    (CompareHelmCharts A A).AddedCVEs = [] ∧
    (CompareHelmCharts A A).RemovedCVEs = [] := by
  have hnoop : CompareHelmCharts A A
      = (indexImages A.ContainsImages).foldl
          (beforeStep (indexImages A.ContainsImages)) (initComparison A A) :=
    foldl_preserve (afterStep (indexImages A.ContainsImages)) id
      (indexImages A.ContainsImages)
      (fun c p hp => by
        have hb := mapLookup_of_mem_unique _ p (keysUnique_indexImages _) hp
        simp [afterStep_eq, hb]) _
  have hall : ∀ p ∈ indexImages A.ContainsImages,
      ∃ a, mapLookup (indexImages A.ContainsImages) p.1 = some a ∧ p.2.Tag = a.Tag :=
    fun p hp => ⟨p.2, mapLookup_of_mem_unique _ p (keysUnique_indexImages _) hp, rfl⟩
  have h := beforeFold_unchangedOnly (indexImages A.ContainsImages)
    (indexImages A.ContainsImages) hall (initComparison A A)
  rw [hnoop]
  exact ⟨h.1, h.2.1, h.2.2.1, h.2.2.2.1, h.2.2.2.2⟩

/-! ### Helpers expressing the "exactly one" counting of the claims -/

/-- In how many of the four image classification maps does `n` occur as a
key? -/
def imageClassCount (c : HelmComparison) (n : String) : Nat :=
  [(mapLookup c.AddedImages n).isSome,
   (mapLookup c.RemovedImages n).isSome,
   (mapLookup c.ChangedImages n).isSome,
   (mapLookup c.UnChangedImages n).isSome].count true

/-- In how many of the three CVE classification maps does the pair
`(id, n)` occur? -/
def cveClassCount (c : HelmComparison) (id n : String) : Nat :=
  [(cveLookup c.AddedCVEs id n).isSome,
   (cveLookup c.RemovedCVEs id n).isSome,
   (cveLookup c.UnchangedCVEs id n).isSome].count true

theorem formatSignedInt_zero : formatSignedInt 0 = "+0" := rfl

/-! ### Concrete charts used by the witnesses -/

def imgW1 : ContainerImage :=
  { Repository := "repo", Tag := "v1", ImageName := "app",
    Vulnerabilities := [("CVE-1", { ID := "CVE-1", Severity := "high" })] }

def imgW2 : ContainerImage :=
  { Repository := "repo", Tag := "v2", ImageName := "app",
    Vulnerabilities := [("CVE-1", { ID := "CVE-1", Severity := "high" }),
                        ("CVE-2", { ID := "CVE-2", Severity := "critical" })] }

def chartW1 : HelmChart :=
  { Name := "c", Version := "1", HelmRepo := "r", ContainsImages := [imgW1] }

def chartW2 : HelmChart :=
  { Name := "c", Version := "2", HelmRepo := "r", ContainsImages := [imgW2] }

/-! ### The claims -/

/-- C1: for every pair of charts (before, after), every image name
occurring in `before.ContainsImages` or `after.ContainsImages` appears as
a key in exactly one of the four maps `AddedImages`, `RemovedImages`,
`ChangedImages`, `UnChangedImages` of `CompareHelmCharts before after`. -/
theorem c1_image_partition (before after : HelmChart) (n : String)
    (h : n ∈ before.ContainsImages.map ContainerImage.ImageName
       ∨ n ∈ after.ContainsImages.map ContainerImage.ImageName) :
    imageClassCount (CompareHelmCharts before after) n = 1 := by
  rw [imageClassCount, compare_AddedImages_lookup, compare_RemovedImages_lookup,
    compare_ChangedImages_lookup, compare_UnChangedImages_lookup]
  rw [← lookup_indexImages_isSome, ← lookup_indexImages_isSome] at h
  cases hB : mapLookup (indexImages before.ContainsImages) n with
  | none =>
    cases hA : mapLookup (indexImages after.ContainsImages) n with
    | none =>
      rw [hB, hA] at h
      simp at h
    | some a => simp [List.count_cons, List.count_nil]
  | some b =>
    cases hA : mapLookup (indexImages after.ContainsImages) n with
    | none => simp [List.count_cons, List.count_nil]
    | some a =>
      by_cases ht : b.Tag ≠ a.Tag <;> simp [ht, List.count_cons, List.count_nil]

theorem c1_image_partition_witness :
    ("app" ∈ chartW1.ContainsImages.map ContainerImage.ImageName
      ∨ "app" ∈ chartW2.ContainsImages.map ContainerImage.ImageName) ∧
    imageClassCount (CompareHelmCharts chartW1 chartW2) "app" = 1 :=
  ⟨by decide, c1_image_partition chartW1 chartW2 "app" (by decide)⟩

/-- C4: for an image name present in both charts, the pair is classified
Changed exactly when the two `Tag` fields differ and Unchanged exactly
when they are equal (no other field is consulted); for an Unchanged pair
every CVE of the before image is recorded in `UnchangedCVEs` under that
name, and no entry for that name reaches `AddedCVEs` or `RemovedCVEs`
(no CVE-level comparison is performed). -/
theorem c4_tag_discriminator (before after : HelmChart) (n : String)
    (b a : ContainerImage)
    (hb : mapLookup (indexImages before.ContainsImages) n = some b)
    (ha : mapLookup (indexImages after.ContainsImages) n = some a) :
    (b.Tag ≠ a.Tag →
      mapLookup (CompareHelmCharts before after).ChangedImages n = some [b, a] ∧
      mapLookup (CompareHelmCharts before after).UnChangedImages n = none) ∧
    (b.Tag = a.Tag →
      mapLookup (CompareHelmCharts before after).UnChangedImages n = some [b, a] ∧
      mapLookup (CompareHelmCharts before after).ChangedImages n = none ∧
      (∀ id v, keysUnique b.Vulnerabilities →
        mapLookup b.Vulnerabilities id = some v →
        cveLookup (CompareHelmCharts before after).UnchangedCVEs id n = some v) ∧
      (∀ id,
        cveLookup (CompareHelmCharts before after).AddedCVEs id n = none ∧
        cveLookup (CompareHelmCharts before after).RemovedCVEs id n = none)) := by
  constructor
  · intro ht
    constructor
    · rw [compare_ChangedImages_lookup, hb, ha]
      simp [ht]
    · rw [compare_UnChangedImages_lookup, hb, ha]
      simp [ht]
  · intro ht
    refine ⟨?_, ?_, ?_, ?_⟩
    · rw [compare_UnChangedImages_lookup, hb, ha]
      simp [ht]
    · rw [compare_ChangedImages_lookup, hb, ha]
      simp [ht]
    · intro id v hu hv
      have hl : lastLookup b.Vulnerabilities id = mapLookup b.Vulnerabilities id :=
        lastLookup_of_unique b.Vulnerabilities id hu
      rw [compare_UnchangedCVEs_lookup, hb, ha]
      simp [ht, hl, hv]
    · intro id
      constructor
      · rw [compare_AddedCVEs_lookup, hb, ha]
        simp [ht]
      · rw [compare_RemovedCVEs_lookup, hb, ha]
        simp [ht]

theorem c4_tag_discriminator_witness :
    mapLookup (indexImages chartW1.ContainsImages) "app" = some imgW1 ∧
    mapLookup (indexImages chartW2.ContainsImages) "app" = some imgW2 ∧
    ((imgW1.Tag ≠ imgW2.Tag →
      mapLookup (CompareHelmCharts chartW1 chartW2).ChangedImages "app"
        = some [imgW1, imgW2] ∧
      mapLookup (CompareHelmCharts chartW1 chartW2).UnChangedImages "app" = none) ∧
    (imgW1.Tag = imgW2.Tag →
      mapLookup (CompareHelmCharts chartW1 chartW2).UnChangedImages "app"
        = some [imgW1, imgW2] ∧
      mapLookup (CompareHelmCharts chartW1 chartW2).ChangedImages "app" = none ∧
      (∀ id v, keysUnique imgW1.Vulnerabilities →
        mapLookup imgW1.Vulnerabilities id = some v →
        cveLookup (CompareHelmCharts chartW1 chartW2).UnchangedCVEs id "app" = some v) ∧
      (∀ id,
        cveLookup (CompareHelmCharts chartW1 chartW2).AddedCVEs id "app" = none ∧
        cveLookup (CompareHelmCharts chartW1 chartW2).RemovedCVEs id "app" = none))) :=
  ⟨by decide, by decide,
    c4_tag_discriminator chartW1 chartW2 "app" imgW1 imgW2 (by decide) (by decide)⟩

/-- C6: anti-symmetry of the comparison.  The key set of
`CompareHelmCharts A B`'s `AddedImages` equals that of
`CompareHelmCharts B A`'s `RemovedImages` and vice versa, and the set of
(CVE ID, image name) entries of `AddedCVEs` of `CompareHelmCharts A B`
equals that of `RemovedCVEs` of `CompareHelmCharts B A` and vice versa. -/
theorem c6_antisymmetry (A B : HelmChart) (n id : String) :
    ((mapLookup (CompareHelmCharts A B).AddedImages n).isSome ↔
      (mapLookup (CompareHelmCharts B A).RemovedImages n).isSome) ∧
    ((mapLookup (CompareHelmCharts A B).RemovedImages n).isSome ↔
      (mapLookup (CompareHelmCharts B A).AddedImages n).isSome) ∧
    ((cveLookup (CompareHelmCharts A B).AddedCVEs id n).isSome ↔
      (cveLookup (CompareHelmCharts B A).RemovedCVEs id n).isSome) ∧
    ((cveLookup (CompareHelmCharts A B).RemovedCVEs id n).isSome ↔
      (cveLookup (CompareHelmCharts B A).AddedCVEs id n).isSome) := by
  refine ⟨?_, ?_, ?_, ?_⟩
  · rw [compare_AddedImages_lookup, compare_RemovedImages_lookup]
  · rw [compare_RemovedImages_lookup, compare_AddedImages_lookup]
  · rw [compare_AddedCVEs_lookup, compare_RemovedCVEs_lookup]
    cases hA : mapLookup (indexImages A.ContainsImages) n with
    | none =>
      cases hB : mapLookup (indexImages B.ContainsImages) n with
      | none => simp
      | some y => simp
    | some x =>
      cases hB : mapLookup (indexImages B.ContainsImages) n with
      | none => simp
      | some y =>
        by_cases ht : x.Tag = y.Tag
        · simp [ht]
        · have ht2 : ¬(y.Tag = x.Tag) := fun he => ht he.symm
          simp [ht, ht2]
  · rw [compare_RemovedCVEs_lookup, compare_AddedCVEs_lookup]
    cases hA : mapLookup (indexImages A.ContainsImages) n with
    | none =>
      cases hB : mapLookup (indexImages B.ContainsImages) n with
      | none => simp
      | some y => simp
    | some x =>
      cases hB : mapLookup (indexImages B.ContainsImages) n with
      | none => simp
      | some y =>
        by_cases ht : x.Tag = y.Tag
        · simp [ht]
        · have ht2 : ¬(y.Tag = x.Tag) := fun he => ht he.symm
          simp [ht, ht2]

def imgC2b : ContainerImage :=
  { Repository := "repo", Tag := "v1", ImageName := "app", Vulnerabilities := [] }

def imgC2a : ContainerImage :=
  { Repository := "repo", Tag := "v1", ImageName := "app",
    Vulnerabilities := [("CVE-1", { ID := "CVE-1", Severity := "high" })] }

def chartC2b : HelmChart :=
  { Name := "c", Version := "1", HelmRepo := "r", ContainsImages := [imgC2b] }

def chartC2a : HelmChart :=
  { Name := "c", Version := "2", HelmRepo := "r", ContainsImages := [imgC2a] }

/-- C2 counterexample: the pair `app` is classified Unchanged (same tag),
`CVE-1` lies in the union of the two images' vulnerability maps (it is in
the after image's map), yet it appears in none of the three CVE
classification maps under `app`: the claimed "exactly one" count is 0. -/
theorem c2_counterexample :
    mapLookup (CompareHelmCharts chartC2b chartC2a).UnChangedImages "app"
      = some [imgC2b, imgC2a] ∧
    (mapLookup imgC2a.Vulnerabilities "CVE-1").isSome = true ∧
    cveClassCount (CompareHelmCharts chartC2b chartC2a) "CVE-1" "app" = 0 := by
  decide

/-- C2 (amended): for a pair classified Changed, every CVE ID in the
union of the two images' vulnerability maps appears in exactly one of
`AddedCVEs`, `RemovedCVEs`, `UnchangedCVEs` under that image name; for a
pair classified Unchanged, every CVE ID of the *before* image's map
appears in exactly one (always `UnchangedCVEs`), while a CVE ID absent
from the before image's map appears in none — even when it is present in
the after image's map. -/
theorem c2_cve_partition_per_pair (before after : HelmChart) (n id : String)
    (b a : ContainerImage)
    (hb : mapLookup (indexImages before.ContainsImages) n = some b)
    (ha : mapLookup (indexImages after.ContainsImages) n = some a) :
    (b.Tag ≠ a.Tag →
      (id ∈ mapKeys b.Vulnerabilities ∨ id ∈ mapKeys a.Vulnerabilities) →
      cveClassCount (CompareHelmCharts before after) id n = 1) ∧
    (b.Tag = a.Tag →
      (id ∈ mapKeys b.Vulnerabilities →
        cveClassCount (CompareHelmCharts before after) id n = 1) ∧
      (id ∉ mapKeys b.Vulnerabilities →
        cveClassCount (CompareHelmCharts before after) id n = 0)) := by
  constructor
  · intro ht hmem
    rw [← mapLookup_isSome_iff_mem_keys, ← mapLookup_isSome_iff_mem_keys] at hmem
    rw [cveClassCount, compare_AddedCVEs_lookup, compare_RemovedCVEs_lookup,
      compare_UnchangedCVEs_lookup, hb, ha]
    cases hbv : mapLookup b.Vulnerabilities id <;>
      cases hav : mapLookup a.Vulnerabilities id <;>
        simp_all [ht, lastLookup_isSome_iff, List.count_cons, List.count_nil]
  · intro ht
    constructor
    · intro hmem
      rw [← mapLookup_isSome_iff_mem_keys] at hmem
      rw [cveClassCount, compare_AddedCVEs_lookup, compare_RemovedCVEs_lookup,
        compare_UnchangedCVEs_lookup, hb, ha]
      cases hbv : mapLookup b.Vulnerabilities id <;>
        simp_all [ht, lastLookup_isSome_iff, List.count_cons, List.count_nil]
    · intro hmem
      rw [← mapLookup_isSome_iff_mem_keys] at hmem
      rw [cveClassCount, compare_AddedCVEs_lookup, compare_RemovedCVEs_lookup,
        compare_UnchangedCVEs_lookup, hb, ha]
      cases hbv : mapLookup b.Vulnerabilities id <;>
        simp_all [ht, lastLookup_isSome_iff, List.count_cons, List.count_nil]

theorem c2_cve_partition_per_pair_witness :
    mapLookup (indexImages chartW1.ContainsImages) "app" = some imgW1 ∧
    mapLookup (indexImages chartW2.ContainsImages) "app" = some imgW2 ∧
    ((imgW1.Tag ≠ imgW2.Tag →
      ("CVE-2" ∈ mapKeys imgW1.Vulnerabilities
        ∨ "CVE-2" ∈ mapKeys imgW2.Vulnerabilities) →
      cveClassCount (CompareHelmCharts chartW1 chartW2) "CVE-2" "app" = 1) ∧
    (imgW1.Tag = imgW2.Tag →
      ("CVE-2" ∈ mapKeys imgW1.Vulnerabilities →
        cveClassCount (CompareHelmCharts chartW1 chartW2) "CVE-2" "app" = 1) ∧
      ("CVE-2" ∉ mapKeys imgW1.Vulnerabilities →
        cveClassCount (CompareHelmCharts chartW1 chartW2) "CVE-2" "app" = 0))) :=
  ⟨by decide, by decide,
    c2_cve_partition_per_pair chartW1 chartW2 "app" "CVE-2" imgW1 imgW2
      (by decide) (by decide)⟩

/-- C3: for a pair classified Changed (tags differ), a CVE ID only in the
before image's map is recorded in `RemovedCVEs[id][name]` with the before
vulnerability, an ID only in the after image's map is recorded in
`AddedCVEs[id][name]` with the after vulnerability, and an ID in both is
recorded in `UnchangedCVEs[id][name]` with the before image's instance —
each in that one map only. -/
theorem c3_changed_pair_recording (before after : HelmChart) (n id : String)
    (b a : ContainerImage)
    (hb : mapLookup (indexImages before.ContainsImages) n = some b)
    (ha : mapLookup (indexImages after.ContainsImages) n = some a)
    (hub : keysUnique b.Vulnerabilities) (hua : keysUnique a.Vulnerabilities)
    (ht : b.Tag ≠ a.Tag) :
    (∀ v, mapLookup b.Vulnerabilities id = some v →
      mapLookup a.Vulnerabilities id = none →
      cveLookup (CompareHelmCharts before after).RemovedCVEs id n = some v ∧
      cveLookup (CompareHelmCharts before after).AddedCVEs id n = none ∧
      cveLookup (CompareHelmCharts before after).UnchangedCVEs id n = none) ∧
    (∀ v, mapLookup a.Vulnerabilities id = some v →
      mapLookup b.Vulnerabilities id = none →
      cveLookup (CompareHelmCharts before after).AddedCVEs id n = some v ∧
      cveLookup (CompareHelmCharts before after).RemovedCVEs id n = none ∧
      cveLookup (CompareHelmCharts before after).UnchangedCVEs id n = none) ∧
    (∀ v, mapLookup b.Vulnerabilities id = some v →
      (mapLookup a.Vulnerabilities id).isSome →
      cveLookup (CompareHelmCharts before after).UnchangedCVEs id n = some v ∧
      cveLookup (CompareHelmCharts before after).AddedCVEs id n = none ∧
      cveLookup (CompareHelmCharts before after).RemovedCVEs id n = none) := by
  have hlb : lastLookup b.Vulnerabilities id = mapLookup b.Vulnerabilities id :=
    lastLookup_of_unique b.Vulnerabilities id hub
  have hla : lastLookup a.Vulnerabilities id = mapLookup a.Vulnerabilities id :=
    lastLookup_of_unique a.Vulnerabilities id hua
  refine ⟨?_, ?_, ?_⟩
  · intro v hv hav
    refine ⟨?_, ?_, ?_⟩
    · rw [compare_RemovedCVEs_lookup, hb, ha]
      simp [ht, hlb, hv, hav]
    · rw [compare_AddedCVEs_lookup, hb, ha]
      simp [ht, hv]
    · rw [compare_UnchangedCVEs_lookup, hb, ha]
      simp [ht, hav]
  · intro v hv hbv
    refine ⟨?_, ?_, ?_⟩
    · rw [compare_AddedCVEs_lookup, hb, ha]
      simp [ht, hla, hv, hbv]
    · rw [compare_RemovedCVEs_lookup, hb, ha]
      simp [ht, hbv, hlb]
    · rw [compare_UnchangedCVEs_lookup, hb, ha]
      simp [ht, hbv, hlb]
  · intro v hv hav
    obtain ⟨w, hw⟩ := Option.isSome_iff_exists.mp hav
    refine ⟨?_, ?_, ?_⟩
    · rw [compare_UnchangedCVEs_lookup, hb, ha]
      simp [ht, hlb, hv, hav]
    · rw [compare_AddedCVEs_lookup, hb, ha]
      simp [ht, hv]
    · rw [compare_RemovedCVEs_lookup, hb, ha]
      simp [ht, hw]

theorem c3_changed_pair_recording_witness :
    mapLookup (indexImages chartW1.ContainsImages) "app" = some imgW1 ∧
    mapLookup (indexImages chartW2.ContainsImages) "app" = some imgW2 ∧
    keysUnique imgW1.Vulnerabilities ∧ keysUnique imgW2.Vulnerabilities ∧
    imgW1.Tag ≠ imgW2.Tag ∧
    ((∀ v, mapLookup imgW1.Vulnerabilities "CVE-2" = some v →
      mapLookup imgW2.Vulnerabilities "CVE-2" = none →
      cveLookup (CompareHelmCharts chartW1 chartW2).RemovedCVEs "CVE-2" "app" = some v ∧
      cveLookup (CompareHelmCharts chartW1 chartW2).AddedCVEs "CVE-2" "app" = none ∧
      cveLookup (CompareHelmCharts chartW1 chartW2).UnchangedCVEs "CVE-2" "app" = none) ∧
    (∀ v, mapLookup imgW2.Vulnerabilities "CVE-2" = some v →
      mapLookup imgW1.Vulnerabilities "CVE-2" = none →
      cveLookup (CompareHelmCharts chartW1 chartW2).AddedCVEs "CVE-2" "app" = some v ∧
      cveLookup (CompareHelmCharts chartW1 chartW2).RemovedCVEs "CVE-2" "app" = none ∧
      cveLookup (CompareHelmCharts chartW1 chartW2).UnchangedCVEs "CVE-2" "app" = none) ∧
    (∀ v, mapLookup imgW1.Vulnerabilities "CVE-2" = some v →
      (mapLookup imgW2.Vulnerabilities "CVE-2").isSome →
      cveLookup (CompareHelmCharts chartW1 chartW2).UnchangedCVEs "CVE-2" "app" = some v ∧
      cveLookup (CompareHelmCharts chartW1 chartW2).AddedCVEs "CVE-2" "app" = none ∧
      cveLookup (CompareHelmCharts chartW1 chartW2).RemovedCVEs "CVE-2" "app" = none)) :=
  ⟨by decide, by decide, by decide, by decide, by decide,
    c3_changed_pair_recording chartW1 chartW2 "app" "CVE-2" imgW1 imgW2
      (by decide) (by decide) (by decide) (by decide) (by decide)⟩

/-- C5: comparing a chart with itself yields empty `AddedImages`,
`RemovedImages`, `AddedCVEs` and `RemovedCVEs`, classifies every image as
Unchanged (paired with itself), records every CVE of the chart in
`UnchangedCVEs` (only there, the other CVE maps being empty), and every
severity difference of the rendered reports is zero (`+0` in the
Markdown rows). -/
theorem c5_idempotence (A : HelmChart)
    (hnd : (A.ContainsImages.map ContainerImage.ImageName).Nodup)
    (hwf : ∀ img ∈ A.ContainsImages, keysUnique img.Vulnerabilities) :
    (CompareHelmCharts A A).AddedImages = [] ∧
    (CompareHelmCharts A A).RemovedImages = [] ∧
    (CompareHelmCharts A A).AddedCVEs = [] ∧
    (CompareHelmCharts A A).RemovedCVEs = [] ∧
    (∀ img ∈ A.ContainsImages,
      mapLookup (CompareHelmCharts A A).UnChangedImages img.ImageName
        = some [img, img]) ∧
    (∀ img ∈ A.ContainsImages, ∀ id v,
      mapLookup img.Vulnerabilities id = some v →
      cveLookup (CompareHelmCharts A A).UnchangedCVEs id img.ImageName = some v) ∧
    (∀ sc ∈ generateJSONSeverityCounts (CompareHelmCharts A A), sc.Difference = 0) ∧
    (markdownSeverityRows (CompareHelmCharts A A)
      = severities.map (fun s =>
          "| " ++ s ++ " | "
            ++ toString ((mapLookup (chartSeverityCounts A.ContainsImages) s).getD 0)
            ++ " | "
            ++ toString ((mapLookup (chartSeverityCounts A.ContainsImages) s).getD 0)
            ++ " | " ++ formatSignedInt 0 ++ " |") ∧
    formatSignedInt 0 = "+0") := by
  obtain ⟨hAI, hRI, hCI, hACVE, hRCVE⟩ := compare_self_shape A
  refine ⟨hAI, hRI, hACVE, hRCVE, ?_, ?_, ?_, ?_⟩
  · intro img hm
    have hb := lookup_indexImages_of_nodup A.ContainsImages img hm hnd
    rw [compare_UnChangedImages_lookup, hb]
    simp
  · intro img hm id v hv
    have hb := lookup_indexImages_of_nodup A.ContainsImages img hm hnd
    have hl : lastLookup img.Vulnerabilities id = mapLookup img.Vulnerabilities id :=
      lastLookup_of_unique img.Vulnerabilities id (hwf img hm)
    rw [compare_UnchangedCVEs_lookup, hb]
    simp [hl, hv]
  · intro sc hsc
    simp only [generateJSONSeverityCounts, compare_Before, compare_After] at hsc
    obtain ⟨s, _, rfl⟩ := List.mem_map.mp hsc
    simp
  · refine ⟨?_, formatSignedInt_zero⟩
    simp [markdownSeverityRows, compare_Before, compare_After, sub_self]

theorem c5_idempotence_witness :
    (chartW1.ContainsImages.map ContainerImage.ImageName).Nodup ∧
    (∀ img ∈ chartW1.ContainsImages, keysUnique img.Vulnerabilities) ∧
    ((CompareHelmCharts chartW1 chartW1).AddedImages = [] ∧
    (CompareHelmCharts chartW1 chartW1).RemovedImages = [] ∧
    (CompareHelmCharts chartW1 chartW1).AddedCVEs = [] ∧
    (CompareHelmCharts chartW1 chartW1).RemovedCVEs = [] ∧
    (∀ img ∈ chartW1.ContainsImages,
      mapLookup (CompareHelmCharts chartW1 chartW1).UnChangedImages img.ImageName
        = some [img, img]) ∧
    (∀ img ∈ chartW1.ContainsImages, ∀ id v,
      mapLookup img.Vulnerabilities id = some v →
      cveLookup (CompareHelmCharts chartW1 chartW1).UnchangedCVEs id img.ImageName
        = some v) ∧
    (∀ sc ∈ generateJSONSeverityCounts (CompareHelmCharts chartW1 chartW1),
      sc.Difference = 0) ∧
    (markdownSeverityRows (CompareHelmCharts chartW1 chartW1)
      = severities.map (fun s =>
          "| " ++ s ++ " | "
            ++ toString ((mapLookup (chartSeverityCounts chartW1.ContainsImages) s).getD 0)
            ++ " | "
            ++ toString ((mapLookup (chartSeverityCounts chartW1.ContainsImages) s).getD 0)
            ++ " | " ++ formatSignedInt 0 ++ " |") ∧
    formatSignedInt 0 = "+0")) :=
  ⟨by decide, by decide, c5_idempotence chartW1 (by decide) (by decide)⟩

/-- C7: in both the JSON and the Markdown report, the severity summary is
exactly the rows critical, high, medium, low in that order; for each
severity `Current`/`Previous` equal the number of vulnerabilities of that
severity summed over all images of the after resp. before chart,
`Difference = Current − Previous`, and the Markdown difference carries an
explicit sign (`+` for non-negative values, `-` for negative ones). -/
theorem c7_severity_summary (before after : HelmChart) :
    generateJSONSeverityCounts (CompareHelmCharts before after)
      = ["critical", "high", "medium", "low"].map (fun s =>
          { Severity := s,
            Current := severityTotal after.ContainsImages s,
            Previous := severityTotal before.ContainsImages s,
            Difference := (severityTotal after.ContainsImages s : Int)
              - (severityTotal before.ContainsImages s : Int) }) ∧
    markdownSeverityRows (CompareHelmCharts before after)
      = ["critical", "high", "medium", "low"].map (fun s =>
          "| " ++ s ++ " | " ++ toString (severityTotal after.ContainsImages s)
            ++ " | " ++ toString (severityTotal before.ContainsImages s)
            ++ " | " ++ formatSignedInt ((severityTotal after.ContainsImages s : Int)
                  - (severityTotal before.ContainsImages s : Int)) ++ " |") ∧
    (∀ z : Int, formatSignedInt z
        = if 0 ≤ z then "+" ++ toString z else "-" ++ toString z.natAbs) := by
  refine ⟨?_, ?_, ?_⟩
  · simp [generateJSONSeverityCounts, compare_Before, compare_After, severities,
      chartSeverityCounts_spec]
  · simp [markdownSeverityRows, compare_Before, compare_After, severities,
      chartSeverityCounts_spec]
  · intro z
    cases z with
    | ofNat k =>
      have h : (0 : Int) ≤ Int.ofNat k := Int.ofNat_le.mpr (Nat.zero_le k)
      unfold formatSignedInt
      rw [if_pos h, if_pos h]
    | negSucc k =>
      have h : ¬((0 : Int) ≤ Int.negSucc k) := not_le.mpr (Int.negSucc_lt_zero k)
      unfold formatSignedInt
      rw [if_neg h, if_neg h]
      rfl

def imgO1 : ContainerImage :=
  { Repository := "repo1", Tag := "1.0", ImageName := "alpha", Vulnerabilities := [] }

def imgO2 : ContainerImage :=
  { Repository := "repo2", Tag := "2.0", ImageName := "beta", Vulnerabilities := [] }

def chartO0 : HelmChart :=
  { Name := "c", Version := "1", HelmRepo := "r", ContainsImages := [] }

def chartO2 : HelmChart :=
  { Name := "c", Version := "2", HelmRepo := "r", ContainsImages := [imgO1, imgO2] }

/-- The comparison of `chartO0` against `chartO2` with its `AddedImages`
map in the iteration order the embedding produces. -/
def cmpOrder1 : HelmComparison :=
  { Before := chartO0, After := chartO2,
    AddedImages := [("alpha", [imgO1]), ("beta", [imgO2])],
    RemovedImages := [], ChangedImages := [], UnChangedImages := [],
    RemovedCVEs := [], AddedCVEs := [], UnchangedCVEs := [] }

/-- The same comparison value with the other iteration order of the same
two-entry `AddedImages` map. -/
def cmpOrder2 : HelmComparison :=
  { Before := chartO0, After := chartO2,
    AddedImages := [("beta", [imgO2]), ("alpha", [imgO1])],
    RemovedImages := [], ChangedImages := [], UnChangedImages := [],
    RemovedCVEs := [], AddedCVEs := [], UnchangedCVEs := [] }

set_option maxRecDepth 8192 in
/-- C8: the Markdown images table is *not* independent of map iteration
order.  `cmpOrder1` and `cmpOrder2` carry the same `AddedImages` map (a
permutation with identical lookups on unique keys) — `cmpOrder1` being
exactly what `CompareHelmCharts` produces — yet the rendered Images
sections differ, because the renderer emits one row per map entry in
iteration order with no sort. -/
theorem c8_iteration_order_leak :
    CompareHelmCharts chartO0 chartO2 = cmpOrder1 ∧
    cmpOrder1.AddedImages.Perm cmpOrder2.AddedImages ∧
    keysUnique cmpOrder1.AddedImages ∧
    keysUnique cmpOrder2.AddedImages ∧
    (∀ n : String, mapLookup cmpOrder1.AddedImages n
      = mapLookup cmpOrder2.AddedImages n) ∧
    markdownImagesSection cmpOrder1 ≠ markdownImagesSection cmpOrder2 := by
  refine ⟨by decide, List.Perm.swap _ _ _, by decide, by decide, ?_, by decide⟩
  intro n
  by_cases h1 : n = "alpha"
  · subst h1
    decide
  · by_cases h2 : n = "beta"
    · subst h2
      decide
    · have g1 : ¬(("alpha" : String) = n) := fun he => h1 he.symm
      have g2 : ¬(("beta" : String) = n) := fun he => h2 he.symm
      simp [cmpOrder1, cmpOrder2, mapLookup, g1, g2]

def imgC9first : ContainerImage :=
  { Repository := "r", Tag := "v1", ImageName := "app",
    Vulnerabilities := [("CVE-1", { ID := "CVE-1", Severity := "high" })] }

def imgC9second : ContainerImage :=
  { Repository := "r", Tag := "v2", ImageName := "app", Vulnerabilities := [] }

def chartC9b : HelmChart :=
  { Name := "c", Version := "1", HelmRepo := "r",
    ContainsImages := [imgC9first, imgC9second] }

def chartC9a : HelmChart :=
  { Name := "c", Version := "2", HelmRepo := "r",
    ContainsImages := [imgC9second] }

/-- C9 counterexample: `chartC9b` violates the data-model invariant
(duplicate image name `app`), yet `CompareHelmCharts` does not fail: it
returns an ordinary diff computed from the collapsed snapshot, in which
the first duplicate and its `CVE-1` have silently disappeared. -/
theorem c9_counterexample :
    ¬((chartC9b.ContainsImages.map ContainerImage.ImageName).Nodup) ∧
    CompareHelmCharts chartC9b chartC9a
      = { Before := chartC9b, After := chartC9a,
          AddedImages := [], RemovedImages := [], ChangedImages := [],
          UnChangedImages := [("app", [imgC9second, imgC9second])],
          RemovedCVEs := [], AddedCVEs := [], UnchangedCVEs := [] } ∧
    cveClassCount (CompareHelmCharts chartC9b chartC9a) "CVE-1" "app" = 0 := by
  decide

/-- C9 (amended): `CompareHelmCharts` performs no input validation.  It
always returns a comparison embedding its inputs unchanged; duplicate
image names within one chart are silently collapsed by last-write-wins
indexing, so the classification of a name is determined by the *last*
image carrying it on each side (an image with an empty vulnerability map
simply contributes no CVEs). -/
theorem c9_no_validation (before after : HelmChart) (n : String) :
    (CompareHelmCharts before after).Before = before ∧
    (CompareHelmCharts before after).After = after ∧
    mapLookup (CompareHelmCharts before after).UnChangedImages n
      = (match before.ContainsImages.reverse.find? (fun img => img.ImageName == n),
             after.ContainsImages.reverse.find? (fun img => img.ImageName == n) with
         | some b, some a => if b.Tag ≠ a.Tag then none else some [b, a]
         | _, _ => none) ∧
    mapLookup (CompareHelmCharts before after).RemovedImages n
      = (match before.ContainsImages.reverse.find? (fun img => img.ImageName == n),
             after.ContainsImages.reverse.find? (fun img => img.ImageName == n) with
         | some b, none => some [b]
         | _, _ => none) := by
  refine ⟨compare_Before before after, compare_After before after, ?_, ?_⟩
  · rw [compare_UnChangedImages_lookup, lookup_indexImages_lastwin,
      lookup_indexImages_lastwin]
    cases before.ContainsImages.reverse.find? (fun img => img.ImageName == n) <;>
      cases after.ContainsImages.reverse.find? (fun img => img.ImageName == n) <;>
        simp
  · rw [compare_RemovedImages_lookup, lookup_indexImages_lastwin,
      lookup_indexImages_lastwin]
    cases before.ContainsImages.reverse.find? (fun img => img.ImageName == n) <;>
      cases after.ContainsImages.reverse.find? (fun img => img.ImageName == n) <;>
        simp

def imgT10b : ContainerImage :=
  { Repository := "r1", Tag := "v1", ImageName := "app", Vulnerabilities := [] }

def imgT10a : ContainerImage :=
  { Repository := "r2", Tag := "v1", ImageName := "app", Vulnerabilities := [] }

def chartT10b : HelmChart :=
  { Name := "c", Version := "1", HelmRepo := "r", ContainsImages := [imgT10b] }

def chartT10a : HelmChart :=
  { Name := "c", Version := "2", HelmRepo := "r", ContainsImages := [imgT10a] }

/-- C10: the Markdown images table and the JSON image-change list
disagree for an Unchanged pair whose repository changed: the Markdown row
reports the after image's repository (`r2`, from `images[1]`), while the
JSON entry's `AfterRepo` is taken from `images[0]` and reports the
*before* repository (`r1`), differing from the after image's
`Repository` field. -/
theorem c10_json_md_divergence :
    (CompareHelmCharts chartT10b chartT10a).UnChangedImages
      = [("app", [imgT10b, imgT10a])] ∧
    markdownImageRows (CompareHelmCharts chartT10b chartT10a)
      = ["| app | Unchanged | r1 | r2 | v1 | v1 |"] ∧
    generateJSONImageChanges (CompareHelmCharts chartT10b chartT10a)
      = [{ Name := "app", Status := "Unchanged", BeforeRepo := "r1",
           AfterRepo := "r1", BeforeTag := "v1", AfterTag := "v1" }] ∧
    ((generateJSONImageChanges (CompareHelmCharts chartT10b chartT10a)).getD 0
        default).AfterRepo ≠ imgT10a.Repository := by
  decide

end Helmscan
